import Mathlib

/-!
Verification of the z3dk static analyzer core (`scripts/static_analyzer.py`).

This file gives a shallow embedding of the analyzer's data model and of the
worklist-driven state tracker, and proves or refutes the frozen claims about
them.  Python integers are modelled as `Int` (addresses, deltas) and `Nat`
(byte and word values); Python's floor division `//` and remainder `%` on
`Int` are Lean's `/` and `%` on `Int` (Euclidean division, which agrees
with Python floor division for the positive divisors used here), so
`x >> 16` is `x / 65536`, `x & 0xFFFF` is `x % 65536`, and `x & 0xFF0000`
is `((x / 65536) % 256) * 65536`.  A ROM is a `List (Fin 256)` (Python
`bytes`).  Fallible reads return `Option`; the mutable `StateTracker` object
becomes an explicit state record threaded through a fuel-indexed small-step
machine, one machine step per iteration of the `_trace_block` loop (or per
worklist pop).  Python exceptions surface as an `error` outcome.
-/

namespace Z3dk

/-! ### Bit-composition helpers

Python composes little-endian words with `lo | (hi << 8)` and call targets
with `(addr & 0xFF0000) | target`.  These lemmas reduce those disjoint
bitwise ors to additions.
-/

theorem natLor_high_low {lo : Nat} (hi k : Nat) (h : lo < 2 ^ k) :
    (2 ^ k * hi) ||| lo = 2 ^ k * hi + lo :=
  (Nat.mul_add_lt_is_or h hi).symm

theorem intLor_nonneg (x y : Int) (hx : 0 ≤ x) (hy : 0 ≤ y) :
    Int.lor x y = ((x.toNat ||| y.toNat : Nat) : Int) := by
  cases x with
  | ofNat m =>
    cases y with
    | ofNat n => rfl
    | negSucc n => exact absurd hy (by exact of_decide_eq_false rfl)
  | negSucc m => exact absurd hx (by exact of_decide_eq_false rfl)

/-! ### Address mapper (`snes_to_pc`) -/

/-- The `mapper` string parameter; only the two recognized conventions. -/
inductive Mapper
  | lorom
  | hirom
deriving DecidableEq

/-- Embedding of `snes_to_pc(addr, mapper)`: converts a SNES address to a PC
(file) offset.  Falls through to `-1` when no bank-range condition fires. -/
def snes_to_pc (addr : Int) (mapper : Mapper) : Int :=
  match mapper with
  | .lorom =>
    let bank := (addr / 65536) % 256
    let offset := addr % 65536
    if bank < 0x40 then bank * 0x8000 + (offset - 0x8000)
    else if 0x80 ≤ bank ∧ bank < 0xC0 then (bank - 0x80) * 0x8000 + (offset - 0x8000)
    else if 0xC0 ≤ bank then (bank - 0xC0) * 0x8000 + (offset - 0x8000)
    else -1
  | .hirom =>
    let bank := (addr / 65536) % 256
    let offset := addr % 65536
    if bank < 0x40 then bank * 0x10000 + offset
    else if 0x80 ≤ bank ∧ bank < 0xC0 then (bank - 0x80) * 0x10000 + offset
    else -1

/-- Embedding of `StateTracker.read_byte`: a byte from ROM at a SNES address,
`none` when the computed offset is outside `[0, len(rom))`. -/
def read_byte (rom : List (Fin 256)) (mapper : Mapper) (addr : Int) : Option Nat :=
  let pc := snes_to_pc addr mapper
  if 0 ≤ pc then (rom.get? pc.toNat).map Fin.val else none

/-- Embedding of `StateTracker.read_word`: 16-bit little-endian word. -/
def read_word (rom : List (Fin 256)) (mapper : Mapper) (addr : Int) : Option Nat :=
  match read_byte rom mapper addr, read_byte rom mapper (addr + 1) with
  | some lo, some hi => some (lo ||| (hi <<< 8))
  | _, _ => none

/-- Embedding of `StateTracker.read_long`: 24-bit little-endian value. -/
def read_long (rom : List (Fin 256)) (mapper : Mapper) (addr : Int) : Option Nat :=
  match read_byte rom mapper addr, read_byte rom mapper (addr + 1),
        read_byte rom mapper (addr + 2) with
  | some lo, some mid, some hi => some (lo ||| (mid <<< 8) ||| (hi <<< 16))
  | _, _, _ => none

/-! ### Register-state model -/

/-- Embedding of the `StackOp` dataclass. -/
structure StackOp where
  addr : Int
  opcode : String
  delta : Int
  cumulative : Int
deriving DecidableEq

/-- Embedding of the `RegisterState` dataclass.  `m_flag`/`x_flag` are the
tri-state width flags (`some true` = 8-bit, `some false` = 16-bit, `none` =
unknown), matching Python's `Optional[bool]`. -/
structure RegisterState where
  m_flag : Option Bool := none
  x_flag : Option Bool := none
  emulation : Bool := false
  stack_depth : Int := 0
  stack_ops : List StackOp := []
deriving DecidableEq

/-- Embedding of `RegisterState.m_width` (Python truthiness: `self.m_flag`
is truthy exactly when it is `True`). -/
def RegisterState.m_width (s : RegisterState) : Nat :=
  if s.emulation || s.m_flag == some true then 1
  else if s.m_flag == some false then 2
  else 1

/-- Embedding of `RegisterState.x_width`. -/
def RegisterState.x_width (s : RegisterState) : Nat :=
  if s.emulation || s.x_flag == some true then 1
  else if s.x_flag == some false then 2
  else 1

/-- Embedding of the `STACK_DELTAS` table with the `.get(opcode, 0)`
default folded in. -/
def STACK_DELTAS (opcode : String) : Int :=
  match opcode with
  | "PHA" => 1
  | "PHX" => 1
  | "PHY" => 1
  | "PHP" => 1
  | "PHB" => 1
  | "PHD" => 2
  | "PHK" => 1
  | "PEA" => 2
  | "PEI" => 2
  | "PER" => 2
  | "PLA" => -1
  | "PLX" => -1
  | "PLY" => -1
  | "PLP" => -1
  | "PLB" => -1
  | "PLD" => -2
  | "JSR" => 2
  | "JSL" => 3
  | "RTS" => -2
  | "RTL" => -3
  | "RTI" => -3
  | _ => 0

/-- Embedding of `RegisterState.get_stack_delta`. -/
def RegisterState.get_stack_delta (s : RegisterState) (opcode : String) : Int :=
  let base_delta := STACK_DELTAS opcode
  if opcode = "PHA" ∨ opcode = "PLA" then
    base_delta * (if s.m_flag == some false then 2 else 1)
  else if opcode = "PHX" ∨ opcode = "PLX" ∨ opcode = "PHY" ∨ opcode = "PLY" then
    base_delta * (if s.x_flag == some false then 2 else 1)
  else base_delta

/-- Embedding of `RegisterState.record_stack_op`. -/
def RegisterState.record_stack_op (s : RegisterState) (addr : Int) (opcode : String) :
    RegisterState :=
  let delta := s.get_stack_delta opcode
  let depth := s.stack_depth + delta
  { s with stack_depth := depth,
           stack_ops := s.stack_ops ++ [⟨addr, opcode, delta, depth⟩] }

/-! ### Cross references and the call graph -/

/-- Embedding of the `CrossRef` dataclass. -/
structure CrossRef where
  from_addr : Int
  to_addr : Int
  kind : String
  from_bank : Int := 0
  to_bank : Int := 0
  is_tail_call : Bool := false
deriving DecidableEq

/-- Bank fields as set by `CallGraph.add_reference` (`ref.from_bank =
ref.from_addr >> 16`, `ref.to_bank = ref.to_addr >> 16`; the Python code
mutates the shared `CrossRef` object, so the copy already appended to
`StateTracker.cross_refs` carries the banks too). -/
def setBanks (ref : CrossRef) : CrossRef :=
  { ref with from_bank := ref.from_addr / 65536, to_bank := ref.to_addr / 65536 }

/-- A `defaultdict(list)` keyed by address, in insertion order:
`m[k].append(v)`. -/
def ddAppend {β : Type} (m : List (Int × List β)) (k : Int) (v : β) :
    List (Int × List β) :=
  match m with
  | [] => [(k, [v])]
  | (k', vs) :: rest =>
      if k' = k then (k, vs ++ [v]) :: rest else (k', vs) :: ddAppend rest k v

/-- Embedding of the `CallGraph` fields the claims touch. -/
structure CallGraph where
  forward : List (Int × List CrossRef) := []
  reverse : List (Int × List CrossRef) := []
  entry_points : List Int := []
deriving DecidableEq

/-- Embedding of `CallGraph.add_reference`. -/
def CallGraph.add_reference (g : CallGraph) (ref : CrossRef) : CallGraph :=
  let ref := setBanks ref
  { g with forward := ddAppend g.forward ref.from_addr ref,
           reverse := ddAppend g.reverse ref.to_addr ref }

/-- Embedding of `CallGraph.add_entry_point` (Python `set.add`). -/
def CallGraph.add_entry_point (g : CallGraph) (addr : Int) : CallGraph :=
  if addr ∈ g.entry_points then g
  else { g with entry_points := g.entry_points ++ [addr] }

/-- Embedding of `CallGraph.find_cross_bank_calls`: iterates the forward
map's value lists and keeps refs of kind `jsr`/`jmp` with differing banks. -/
def CallGraph.find_cross_bank_calls (g : CallGraph) : List CrossRef :=
  ((g.forward.map Prod.snd).flatten).filter
    (fun ref => (ref.kind == "jsr" || ref.kind == "jmp") && ref.from_bank != ref.to_bank)

/-! ### Diagnostics -/

/-- Structured rendering of the heterogeneous Python `context` dicts. -/
inductive DiagContext
  | empty
  | stateMismatch (expected actual : RegisterState)
  | imbalance (balance : Int) (operations : List StackOp)
  | pairMismatch (pushes pulls : Nat) (pair : String × String)
deriving DecidableEq

/-- Embedding of `AnalysisDiagnostic`.  The `message` field keeps a stable
tag in place of the Python f-string rendering; the semantic payload lives in
`context`. -/
structure AnalysisDiagnostic where
  severity : String
  message : String
  address : Int
  context : DiagContext := .empty
deriving DecidableEq

/-! ### Opcode tables -/

/-- Embedding of the `PUSH_OPCODES` dict. -/
def PUSH_OPCODES (op : Nat) : Option String :=
  if op = 0x48 then some "PHA" else if op = 0xDA then some "PHX"
  else if op = 0x5A then some "PHY" else if op = 0x08 then some "PHP"
  else if op = 0x8B then some "PHB" else if op = 0x0B then some "PHD"
  else if op = 0x4B then some "PHK" else if op = 0xF4 then some "PEA"
  else if op = 0xD4 then some "PEI" else if op = 0x62 then some "PER"
  else none

/-- Embedding of the `PULL_OPCODES` dict. -/
def PULL_OPCODES (op : Nat) : Option String :=
  if op = 0x68 then some "PLA" else if op = 0xFA then some "PLX"
  else if op = 0x7A then some "PLY" else if op = 0x28 then some "PLP"
  else if op = 0xAB then some "PLB" else if op = 0x2B then some "PLD"
  else none

/-- Embedding of the `CALL_OPCODES` dict (mnemonic, operand size). -/
def CALL_OPCODES (op : Nat) : Option (String × Nat) :=
  if op = 0x20 then some ("JSR", 2)
  else if op = 0x22 then some ("JSL", 3)
  else if op = 0xFC then some ("JSR", 2)
  else none

/-- Embedding of the `RETURN_OPCODES` dict. -/
def RETURN_OPCODES (op : Nat) : Option String :=
  if op = 0x60 then some "RTS"
  else if op = 0x6B then some "RTL"
  else if op = 0x40 then some "RTI"
  else none

/-- Embedding of the `JUMP_OPCODES` dict (mnemonic, operand size). -/
def JUMP_OPCODES (op : Nat) : Option (String × Nat) :=
  if op = 0x4C then some ("JMP", 2)
  else if op = 0x5C then some ("JML", 3)
  else if op = 0x6C then some ("JMP", 2)
  else if op = 0x7C then some ("JMP", 2)
  else if op = 0xDC then some ("JML", 2)
  else none

/-- Membership in the `BRANCH_OPCODES` dict (the mnemonic value is never
read by `_trace_block`, only membership is tested). -/
def BRANCH_OPCODES (op : Nat) : Bool :=
  op = 0x10 || op = 0x30 || op = 0x50 || op = 0x70 ||
  op = 0x90 || op = 0xB0 || op = 0xD0 || op = 0xF0 ||
  op = 0x80 || op = 0x82

/-- Embedding of `get_operand_size(opcode, m_width, x_width)` with its
guard chain in source order (`mode = opcode & 0x1F` is `opcode % 32`,
`opcode & 0x0F` is `opcode % 16`). -/
def get_operand_size (opcode : Nat) (m_width x_width : Nat) : Nat :=
  let mode := opcode % 32
  if opcode = 0x09 ∨ opcode = 0x29 ∨ opcode = 0x49 ∨ opcode = 0x69 ∨
     opcode = 0x89 ∨ opcode = 0xA9 ∨ opcode = 0xC9 ∨ opcode = 0xE9 then m_width
  else if opcode = 0xA0 ∨ opcode = 0xA2 ∨ opcode = 0xC0 ∨ opcode = 0xE0 then x_width
  else if mode = 0x05 ∨ mode = 0x06 ∨ mode = 0x07 ∨
     mode = 0x15 ∨ mode = 0x16 ∨ mode = 0x17 then 1
  else if mode = 0x0D ∨ mode = 0x0E ∨ mode = 0x0F ∨
     mode = 0x1D ∨ mode = 0x1E ∨ mode = 0x1F then
    (if opcode % 16 = 0x0F then 3 else 2)
  else if mode = 0x03 ∨ mode = 0x13 then 1
  else if opcode = 0x10 ∨ opcode = 0x30 ∨ opcode = 0x50 ∨ opcode = 0x70 ∨
     opcode = 0x90 ∨ opcode = 0xB0 ∨ opcode = 0xD0 ∨ opcode = 0xF0 ∨
     opcode = 0x80 then 1
  else if opcode = 0x82 then 2
  else if opcode = 0x44 ∨ opcode = 0x54 then 2
  else if opcode = 0x20 ∨ opcode = 0x4C ∨ opcode = 0x6C ∨ opcode = 0x7C ∨
     opcode = 0xFC then 2
  else if opcode = 0x22 ∨ opcode = 0x5C ∨ opcode = 0xDC then 3
  else if opcode = 0x00 ∨ opcode = 0x02 ∨ opcode = 0xC2 ∨ opcode = 0xE2 then 1
  else if opcode = 0xF4 ∨ opcode = 0x62 then 2
  else if opcode = 0xD4 then 1
  else 0

/-! ### The state tracker

The mutable `StateTracker` object becomes a record of its fields; the
`rom`/`mapper` constructor arguments are passed as parameters.  The Python
`labels` dict is only interpolated into message strings and is dropped.
The nested loops of `analyze_from` / `_trace_block` become a small-step
machine: phase `popping` is the `while self.pending` head, phase
`inBlock addr cur routineStart targetVar` is one iteration of the
`while True` loop of `_trace_block`, with `targetVar` modelling the Python
local variable `target` (`none` = never assigned in this `_trace_block`
call, `some none` = assigned `None`, `some (some t)` = assigned `t`).
-/

/-- The mutable fields of `StateTracker`. -/
structure TrackerSt where
  visited : List (Int × RegisterState) := []
  pending : List (Int × RegisterState × Int) := []
  cross_refs : List CrossRef := []
  diagnostics : List AnalysisDiagnostic := []
  call_graph : CallGraph := {}
  stack_issues : List AnalysisDiagnostic := []
  return_states : List (Int × List (Int × RegisterState)) := []
deriving DecidableEq

/-- Embedding of `StateTracker._record_call` (the shared `CrossRef` object
appended to `cross_refs` is then mutated by `add_reference`, so both copies
carry the bank fields). -/
def record_call (st : TrackerSt) (from_addr to_addr : Int) (kind : String) : TrackerSt :=
  let ref : CrossRef := { from_addr := from_addr, to_addr := to_addr, kind := kind }
  { st with cross_refs := st.cross_refs ++ [setBanks ref],
            call_graph := st.call_graph.add_reference ref }

/-- Embedding of `StateTracker._states_compatible`. -/
def states_compatible (s1 s2 : RegisterState) : Bool :=
  ((s1.m_flag == s2.m_flag) || (s1.m_flag == none) || (s2.m_flag == none)) &&
  ((s1.x_flag == s2.x_flag) || (s1.x_flag == none) || (s2.x_flag == none))

/-- Embedding of `StateTracker._check_state_mismatch`: one warning is
appended when the issue list is nonempty (M and/or X both known and
different). -/
def check_state_mismatch (st : TrackerSt) (addr : Int) (existing new : RegisterState) :
    TrackerSt :=
  let m_issue := existing.m_flag.isSome && new.m_flag.isSome &&
    (existing.m_flag != new.m_flag)
  let x_issue := existing.x_flag.isSome && new.x_flag.isSome &&
    (existing.x_flag != new.x_flag)
  if m_issue || x_issue then
    { st with diagnostics := st.diagnostics ++
        [⟨"warning", "State mismatch", addr, .stateMismatch existing new⟩] }
  else st

/-- Python `l[-n:]`. -/
def lastN {α : Type} (n : Nat) (l : List α) : List α :=
  l.drop (l.length - n)

/-- Occurrence count of a mnemonic among the local stack operations: this
is what the `pair_counts` dict built by the counting loop holds, with the
`.get(_, 0)` default folded in. -/
def pairCount (local_ops : List StackOp) (mn : String) : Nat :=
  (local_ops.filter (fun op => op.opcode == mn)).length

/-- The body of the `for push, pull in pairs` loop of
`_check_stack_balance_at_return`. -/
def pairIssue (local_ops : List StackOp) (addr : Int) (st : TrackerSt)
    (pp : String × String) : TrackerSt :=
  let pushes := pairCount local_ops pp.1
  let pulls := pairCount local_ops pp.2
  if pushes ≠ pulls then
    { st with stack_issues := st.stack_issues ++
        [⟨"warning", "Unbalanced push-pull at return", addr,
          .pairMismatch pushes pulls pp⟩] }
  else st

/-- Embedding of `StateTracker._check_stack_balance_at_return`. -/
def check_stack_balance_at_return (st : TrackerSt) (addr : Int) (state : RegisterState) :
    TrackerSt :=
  let local_ops := state.stack_ops.filter (fun op =>
    !(op.opcode == "JSR" || op.opcode == "JSL" || op.opcode == "RTS" ||
      op.opcode == "RTL" || op.opcode == "RTI"))
  if local_ops.isEmpty then st
  else
    let local_balance := (local_ops.map StackOp.delta).sum
    let st :=
      if local_balance ≠ 0 then
        { st with stack_issues := st.stack_issues ++
            [⟨"warning", "Stack imbalance at return", addr,
              .imbalance local_balance (lastN 10 local_ops)⟩] }
      else st
    let pairs : List (String × String) :=
      [("PHB", "PLB"), ("PHD", "PLD"), ("PHP", "PLP"),
       ("PHA", "PLA"), ("PHX", "PLX"), ("PHY", "PLY")]
    pairs.foldl (pairIssue local_ops addr) st

/-- Python `str.lower()` on a mnemonic: ASCII per-character lowering
(`String.toLower` itself does not reduce in the kernel, so the character
map is applied to the underlying data directly). -/
def lowerMnemonic (s : String) : String := ⟨s.data.map Char.toLower⟩

/-- The absolute (two-byte-operand) call or jump destination
`(addr & 0xFF0000) | target`. -/
def absTarget (addr : Int) (target : Nat) : Int :=
  Int.lor (((addr / 65536) % 256) * 65536) (target : Int)

/-- Control position inside `analyze_from`. -/
inductive Phase
  | popping
  | inBlock (addr : Int) (cur : RegisterState) (routineStart : Int)
      (targetVar : Option (Option Int))
deriving DecidableEq

/-- Python exceptions that `_trace_block` can raise: using the local
`target` before any assignment (`UnboundLocalError`), or using a stale
`target = None` as an address (`TypeError` inside `add_reference`). -/
inductive PyError
  | unboundLocalTarget
  | noneTypeTarget
deriving DecidableEq

/-- Result of one machine step. -/
inductive StepRes
  | done (st : TrackerSt)
  | error (e : PyError) (st : TrackerSt)
  | next (c : TrackerSt × Phase)
deriving DecidableEq

/-- The body of one `_trace_block` iteration after the opcode has been
read, in source order: operand size, the flag/stack `elif` chain, then the
call / return / jump / branch blocks. -/
def execInstr (rom : List (Fin 256)) (mapper : Mapper) (st : TrackerSt) (addr : Int)
    (cur0 : RegisterState) (routineStart : Int) (tv : Option (Option Int))
    (opcode : Nat) : StepRes :=
  let op_size := get_operand_size opcode cur0.m_width cur0.x_width
  let next_addr : Int := addr + 1 + (op_size : Int)
  let cur :=
    if opcode = 0xC2 then
      match read_byte rom mapper (addr + 1) with
      | some mask =>
          let c1 := if mask &&& 0x20 ≠ 0 then { cur0 with m_flag := some false } else cur0
          if mask &&& 0x10 ≠ 0 then { c1 with x_flag := some false } else c1
      | none => cur0
    else if opcode = 0xE2 then
      match read_byte rom mapper (addr + 1) with
      | some mask =>
          let c1 := if mask &&& 0x20 ≠ 0 then { cur0 with m_flag := some true } else cur0
          if mask &&& 0x10 ≠ 0 then { c1 with x_flag := some true } else c1
      | none => cur0
    else if opcode = 0x28 then
      { cur0 with m_flag := none, x_flag := none, stack_depth := cur0.stack_depth - 1 }
    else if opcode = 0xFB then
      { cur0 with m_flag := some true, x_flag := some true }
    else
      match PUSH_OPCODES opcode with
      | some mnemonic => cur0.record_stack_op addr mnemonic
      | none =>
        match PULL_OPCODES opcode with
        | some mnemonic => cur0.record_stack_op addr mnemonic
        | none => cur0
  match CALL_OPCODES opcode with
  | some (_mnemonic, size) =>
    if size = 2 then
      match read_word rom mapper (addr + 1) with
      | some target =>
        let target_addr := absTarget addr target
        let st := record_call st addr target_addr "jsr"
        let cur := cur.record_stack_op addr "JSR"
        let st := { st with pending := st.pending ++ [(target_addr, cur, target_addr)] }
        .next (st, .inBlock next_addr cur routineStart (some (some (target : Int))))
      | none => .next (st, .inBlock next_addr cur routineStart (some none))
    else
      match read_long rom mapper (addr + 1) with
      | some target =>
        let st := record_call st addr (target : Int) "jsl"
        let cur := cur.record_stack_op addr "JSL"
        let st := { st with pending := st.pending ++ [((target : Int), cur, (target : Int))] }
        .next (st, .inBlock next_addr cur routineStart (some (some (target : Int))))
      | none => .next (st, .inBlock next_addr cur routineStart (some none))
  | none =>
  match RETURN_OPCODES opcode with
  | some mnemonic =>
    let cur := cur.record_stack_op addr mnemonic
    let cur := if opcode = 0x40 then { cur with m_flag := none, x_flag := none } else cur
    let st := { st with return_states := ddAppend st.return_states routineStart (addr, cur) }
    let st := check_stack_balance_at_return st addr cur
    .next (st, .popping)
  | none =>
  match JUMP_OPCODES opcode with
  | some (mnemonic, size) =>
    if size = 2 then
      match read_word rom mapper (addr + 1) with
      | some target =>
        let target_addr := absTarget addr target
        let st := record_call st addr target_addr (lowerMnemonic mnemonic)
        let st := { st with pending := st.pending ++ [(target_addr, cur, routineStart)] }
        .next (st, .popping)
      | none => .next (st, .popping)
    else
      match read_long rom mapper (addr + 1) with
      | some target =>
        let st := record_call st addr (target : Int) (lowerMnemonic mnemonic)
        let st := { st with pending := st.pending ++ [((target : Int), cur, routineStart)] }
        .next (st, .popping)
      | none => .next (st, .popping)
  | none =>
  if BRANCH_OPCODES opcode then
    let tv :=
      if opcode = 0x82 then
        match read_word rom mapper (addr + 1) with
        | some offset =>
            let off : Int :=
              if (offset : Int) ≥ 0x8000 then (offset : Int) - 0x10000 else (offset : Int)
            some (some (next_addr + off))
        | none => tv
      else
        match read_byte rom mapper (addr + 1) with
        | some offset =>
            let off : Int :=
              if (offset : Int) ≥ 0x80 then (offset : Int) - 0x100 else (offset : Int)
            some (some (next_addr + off))
        | none => tv
    match tv with
    | none => .error .unboundLocalTarget st
    | some none => .error .noneTypeTarget st
    | some (some target) =>
      let st := record_call st addr target "branch"
      let st := { st with pending := st.pending ++ [(target, cur, routineStart)] }
      if opcode = 0x80 then
        .next (st, .popping)
      else
        .next (st, .inBlock next_addr cur routineStart (some (some target)))
  else
    .next (st, .inBlock next_addr cur routineStart tv)

/-- One machine step: pop a worklist item, or run one iteration of the
`_trace_block` loop (visited check, mark, read, process). -/
def step (rom : List (Fin 256)) (mapper : Mapper) (c : TrackerSt × Phase) : StepRes :=
  match c with
  | (st, .popping) =>
    match st.pending with
    | [] => .done st
    | (addr, state, routineStart) :: rest =>
        .next ({ st with pending := rest }, .inBlock addr state routineStart none)
  | (st, .inBlock addr cur routineStart tv) =>
    match st.visited.lookup addr with
    | some existing =>
      if states_compatible existing cur then .next (st, .popping)
      else .next (check_state_mismatch st addr existing cur, .popping)
    | none =>
      let st := { st with visited := st.visited ++ [(addr, cur)] }
      match read_byte rom mapper addr with
      | none => .next (st, .popping)
      | some opcode => execInstr rom mapper st addr cur routineStart tv opcode

/-- Outcome of a fuel-bounded run. -/
inductive RunResult
  | fuelOut
  | done (st : TrackerSt)
  | error (e : PyError) (st : TrackerSt)
deriving DecidableEq

/-- Iterate `step` for at most `fuel` machine steps. -/
def runSteps (rom : List (Fin 256)) (mapper : Mapper) : Nat → TrackerSt × Phase → RunResult
  | 0, _ => .fuelOut
  | n + 1, c =>
    match step rom mapper c with
    | .done st => .done st
    | .error e st => .error e st
    | .next c' => runSteps rom mapper n c'

/-- The prologue of `analyze_from`: register the entry point and push the
initial work item. -/
def seed (st : TrackerSt) (start : Int) (initial : RegisterState) : TrackerSt :=
  { st with call_graph := st.call_graph.add_entry_point start,
            pending := st.pending ++ [(start, initial, start)] }

/-- Embedding of `StateTracker.analyze_from(start, initial)` with explicit
fuel (the machine is later proven to terminate for sufficient fuel). -/
def analyze_from (rom : List (Fin 256)) (mapper : Mapper) (fuel : Nat) (st : TrackerSt)
    (start : Int) (initial : RegisterState) : RunResult :=
  runSteps rom mapper fuel (seed st start initial, .popping)

/-- The tracker state carried by a finished or crashed run. -/
def RunResult.stateOf : RunResult → Option TrackerSt
  | .fuelOut => none
  | .done st => some st
  | .error _ st => some st

/-- A fresh `StateTracker` (all containers empty). -/
def initTracker : TrackerSt := {}

/-- Default entry state used by `analyze_rom` for entry points and hooks
without an explicit contract: 8-bit M and X. -/
def state88 : RegisterState := { m_flag := some true, x_flag := some true }

/-! ### Basic bounds -/

theorem read_byte_lt {rom : List (Fin 256)} {mapper : Mapper} {a : Int} {b : Nat}
    (h : read_byte rom mapper a = some b) : b < 256 := by
  simp only [read_byte] at h
  split at h
  · rcases Option.map_eq_some'.mp h with ⟨f, _, rfl⟩
    exact f.isLt
  · exact absurd h (by simp)

theorem read_word_lt {rom : List (Fin 256)} {mapper : Mapper} {a : Int} {w : Nat}
    (h : read_word rom mapper a = some w) : w < 65536 := by
  unfold read_word at h
  split at h
  next lo hi hlo hhi =>
    have h1 : lo < 2 ^ 16 :=
      lt_of_lt_of_le (read_byte_lt hlo) (by norm_num)
    have h2 : hi <<< 8 < 2 ^ 16 := by
      have := read_byte_lt hhi
      simp only [Nat.shiftLeft_eq]
      omega
    have := Nat.or_lt_two_pow h1 h2
    simp only [Option.some.injEq] at h
    omega
  · exact absurd h (by simp)

theorem read_long_lt {rom : List (Fin 256)} {mapper : Mapper} {a : Int} {w : Nat}
    (h : read_long rom mapper a = some w) : w < 16777216 := by
  unfold read_long at h
  split at h
  next lo mid hi hlo hmid hhi =>
    have b1 := read_byte_lt hlo
    have b2 := read_byte_lt hmid
    have b3 := read_byte_lt hhi
    have h1 : lo < 2 ^ 24 := by omega
    have h2 : mid <<< 8 < 2 ^ 24 := by
      simp only [Nat.shiftLeft_eq]; omega
    have h3 : hi <<< 16 < 2 ^ 24 := by
      simp only [Nat.shiftLeft_eq]; omega
    have := Nat.or_lt_two_pow (Nat.or_lt_two_pow h1 h2) h3
    simp only [Option.some.injEq] at h
    omega
  · exact absurd h (by simp)

theorem m_width_le (s : RegisterState) : s.m_width ≤ 2 := by
  unfold RegisterState.m_width
  split
  · omega
  · split <;> omega

theorem x_width_le (s : RegisterState) : s.x_width ≤ 2 := by
  unfold RegisterState.x_width
  split
  · omega
  · split <;> omega

theorem ite_le {c : Prop} [inst : Decidable c] {a b n : Nat} (ha : a ≤ n) (hb : b ≤ n) :
    (if c then a else b) ≤ n := by
  split <;> assumption

theorem get_operand_size_le (opcode m_width x_width : Nat)
    (hm : m_width ≤ 2) (hx : x_width ≤ 2) :
    get_operand_size opcode m_width x_width ≤ 3 := by
  unfold get_operand_size
  dsimp only
  exact ite_le (by omega) (ite_le (by omega) (ite_le (by omega)
    (ite_le (ite_le (by omega) (by omega)) (ite_le (by omega) (ite_le (by omega)
    (ite_le (by omega) (ite_le (by omega) (ite_le (by omega) (ite_le (by omega)
    (ite_le (by omega) (ite_le (by omega) (ite_le (by omega) (by omega)))))))))))))

theorem absTarget_nonneg (addr : Int) (w : Nat) : 0 ≤ absTarget addr w := by
  unfold absTarget
  rw [intLor_nonneg _ _ (by omega) (by omega)]
  exact Int.natCast_nonneg _

theorem absTarget_lt (addr : Int) (w : Nat) (hw : w < 65536) :
    absTarget addr w < 16777216 := by
  unfold absTarget
  rw [intLor_nonneg _ _ (by omega) (by omega)]
  have h1 : (((addr / 65536) % 256) * 65536).toNat < 2 ^ 24 := by omega
  have h2 : (w : Int).toNat < 2 ^ 24 := by omega
  have := Nat.or_lt_two_pow h1 h2
  omega

/-- Value of the absolute-target composition when the source bank byte is
already reduced: `(b * 65536) | w = b * 65536 + w`. -/
theorem absTarget_eq_add (addr : Int) (w : Nat) (hw : w < 65536) :
    absTarget addr w = ((addr / 65536) % 256) * 65536 + w := by
  unfold absTarget
  rw [intLor_nonneg _ _ (by omega) (by omega)]
  set b : Int := (addr / 65536) % 256 with hb
  have hb0 : 0 ≤ b := by omega
  have hb1 : b < 256 := by omega
  have : (b * 65536).toNat = 65536 * b.toNat := by omega
  rw [this]
  have hlt : (w : Int).toNat < 2 ^ 16 := by omega
  have := @natLor_high_low ((w : Int).toNat) b.toNat 16 hlt
  norm_num at this ⊢
  omega

/-! ### Association-list lookups -/

theorem lookup_append_some {l l' : List (Int × RegisterState)} {a : Int}
    {v : RegisterState} (h : l.lookup a = some v) : (l ++ l').lookup a = some v := by
  rw [List.lookup_append, h]
  rfl

theorem lookup_none_ne {l : List (Int × RegisterState)} {a b : Int}
    {s : RegisterState} (h : l.lookup a = none) (hne : a ≠ b) :
    (l ++ [(b, s)]).lookup a = none := by
  rw [List.lookup_append, h]
  show List.lookup a [(b, s)] = none
  have hb : (a == b) = false := beq_eq_false_iff_ne.mpr hne
  simp [List.lookup, hb]

theorem lookup_append_self {l : List (Int × RegisterState)} {a : Int}
    {s : RegisterState} (h : l.lookup a = none) :
    (l ++ [(a, s)]).lookup a = some s := by
  rw [List.lookup_append, h]
  show List.lookup a [(a, s)] = some s
  simp

theorem lookup_none_not_mem {l : List (Int × RegisterState)} {a : Int}
    (h : l.lookup a = none) : a ∉ l.map Prod.fst := by
  rw [List.lookup_eq_none_iff] at h
  intro hmem
  rcases List.mem_map.mp hmem with ⟨p, hp, rfl⟩
  have := h p hp
  simp at this

/-! ### Field-preservation shapes of the tracker helpers -/

theorem record_call_fields (st : TrackerSt) (fa ta : Int) (k : String) :
    (record_call st fa ta k).visited = st.visited ∧
    (record_call st fa ta k).pending = st.pending ∧
    (record_call st fa ta k).diagnostics = st.diagnostics ∧
    (record_call st fa ta k).stack_issues = st.stack_issues ∧
    (record_call st fa ta k).return_states = st.return_states ∧
    (record_call st fa ta k).cross_refs =
      st.cross_refs ++ [setBanks ⟨fa, ta, k, 0, 0, false⟩] := by
  unfold record_call
  exact ⟨rfl, rfl, rfl, rfl, rfl, rfl⟩

theorem check_state_mismatch_fields (st : TrackerSt) (a : Int)
    (e n : RegisterState) :
    (check_state_mismatch st a e n).visited = st.visited ∧
    (check_state_mismatch st a e n).pending = st.pending ∧
    (check_state_mismatch st a e n).cross_refs = st.cross_refs := by
  unfold check_state_mismatch
  dsimp only
  split <;> exact ⟨rfl, rfl, rfl⟩

theorem foldl_stack_issue_fields (l : List (String × String))
    (f : TrackerSt → String × String → TrackerSt)
    (hf : ∀ st pp, (f st pp).visited = st.visited ∧ (f st pp).pending = st.pending ∧
      (f st pp).cross_refs = st.cross_refs) (st : TrackerSt) :
    (l.foldl f st).visited = st.visited ∧ (l.foldl f st).pending = st.pending ∧
    (l.foldl f st).cross_refs = st.cross_refs := by
  induction l generalizing st with
  | nil => exact ⟨rfl, rfl, rfl⟩
  | cons p rest ih =>
    simp only [List.foldl_cons]
    rcases ih (f st p) with ⟨h1, h2, h3⟩
    rcases hf st p with ⟨g1, g2, g3⟩
    exact ⟨h1.trans g1, h2.trans g2, h3.trans g3⟩

theorem pairIssue_fields (local_ops : List StackOp) (a : Int) (st : TrackerSt)
    (pp : String × String) :
    (pairIssue local_ops a st pp).visited = st.visited ∧
    (pairIssue local_ops a st pp).pending = st.pending ∧
    (pairIssue local_ops a st pp).cross_refs = st.cross_refs := by
  unfold pairIssue
  dsimp only
  split <;> exact ⟨rfl, rfl, rfl⟩

theorem check_stack_balance_fields (st : TrackerSt) (a : Int) (s : RegisterState) :
    (check_stack_balance_at_return st a s).visited = st.visited ∧
    (check_stack_balance_at_return st a s).pending = st.pending ∧
    (check_stack_balance_at_return st a s).cross_refs = st.cross_refs := by
  unfold check_stack_balance_at_return
  dsimp only
  split
  · exact ⟨rfl, rfl, rfl⟩
  · obtain ⟨h1, h2, h3⟩ :=
      foldl_stack_issue_fields _ _ (fun st' pp => pairIssue_fields _ a st' pp) _
    refine ⟨h1.trans ?_, h2.trans ?_, h3.trans ?_⟩ <;> split <;> rfl

/-! ### Bank-window geometry

Both mapping conventions leave the masked banks `0x40`–`0x7F` unmapped, so
every 16 MiB stretch of the (unbounded) address space contains a 4 MiB
window of unreadable addresses.  Since a basic-block walk advances at most
4 bytes per instruction and a branch displaces at most `0x8000`, a trace
can never escape the contiguous non-window region of its entry point, and
call/jump targets always land in `[0, 2^24)`.  This confines every run to
a finite address set, which drives the termination measure.
-/

/-- The masked bank of `a` lies in the unmapped `0x40`–`0x7F` range. -/
def bankWindow (a : Int) : Prop :=
  0x400000 ≤ a % 0x1000000 ∧ a % 0x1000000 ≤ 0x7FFFFF

instance (a : Int) : Decidable (bankWindow a) := by
  unfold bankWindow; infer_instance

theorem window_unreadable {a : Int} (rom : List (Fin 256)) (mapper : Mapper)
    (h : bankWindow a) : read_byte rom mapper a = none := by
  rcases h with ⟨h1, h2⟩
  have hb1 : (0x40 : Int) ≤ (a / 65536) % 256 := by omega
  have hb2 : (a / 65536) % 256 < (0x80 : Int) := by omega
  have hpc : snes_to_pc a mapper = -1 := by
    unfold snes_to_pc
    cases mapper
    · dsimp only
      rw [if_neg (by omega), if_neg (by omega), if_neg (by omega)]
    · dsimp only
      rw [if_neg (by omega), if_neg (by omega)]
  unfold read_byte
  dsimp only
  rw [hpc, if_neg (by omega)]

/-- Index of the contiguous non-window span containing an address. -/
def spanIdx (a : Int) : Int := (a - 0x800000) / 0x1000000

/-- First address of span `k`. -/
def spanStart (k : Int) : Int := k * 0x1000000 + 0x800000

/-- Last address of span `k`. -/
def spanEnd (k : Int) : Int := k * 0x1000000 + 0x13FFFFF

/-- Span `k` padded by `0x9000` slack on both sides (the padding lies
inside the adjacent windows). -/
def spanIcc (k : Int) : Finset Int :=
  Finset.Icc (spanStart k - 0x9000) (spanEnd k + 0x9000)

/-- The finite set of addresses a run seeded at `start` can ever reach:
the padded span of the entry point plus the two padded spans covering the
24-bit target space `[0, 2^24)`. -/
def addrSpace (start : Int) : Finset Int :=
  spanIcc (spanIdx start) ∪ spanIcc (-1) ∪ spanIcc 0

/-- Every address is either in a window or inside its own span. -/
theorem span_mem {a : Int} (h : ¬ bankWindow a) :
    spanStart (spanIdx a) ≤ a ∧ a ≤ spanEnd (spanIdx a) := by
  simp only [bankWindow] at h
  simp only [spanStart, spanEnd, spanIdx]
  omega

/-- A non-window address within the padded span, displaced by at most one
block step or branch reach to another non-window address, stays in the
same (unpadded) span. -/
theorem span_confine {a t k : Int} (ha : ¬ bankWindow a)
    (haI1 : spanStart k - 0x9000 ≤ a) (haI2 : a ≤ spanEnd k + 0x9000)
    (ht : ¬ bankWindow t) (hr1 : a - 0x8000 ≤ t) (hr2 : t ≤ a + 0x9000) :
    spanStart k ≤ t ∧ t ≤ spanEnd k := by
  simp only [bankWindow] at ha ht
  simp only [spanStart, spanEnd] at haI1 haI2 ⊢
  omega

/-- `okAddr start a`: if `a` is not self-evidently unreadable (inside a
window), it lies in the finite address space of the run. -/
def okAddr (start a : Int) : Prop :=
  ¬ bankWindow a → a ∈ addrSpace start

theorem okAddr_entry (start : Int) : okAddr start start := by
  intro hw
  rcases span_mem hw with ⟨h1, h2⟩
  unfold addrSpace spanIcc
  simp only [Finset.mem_union, Finset.mem_Icc]
  exact Or.inl (Or.inl ⟨by omega, by omega⟩)

/-- Any 24-bit value is an admissible address. -/
theorem okAddr_target24 (start : Int) {t : Int} (h0 : 0 ≤ t)
    (h1 : t < 0x1000000) : okAddr start t := by
  intro hw
  unfold bankWindow at hw
  unfold addrSpace spanIcc spanStart spanEnd
  simp only [Finset.mem_union, Finset.mem_Icc]
  rcases (by omega : (0 ≤ t ∧ t ≤ 0x3FFFFF) ∨ (0x800000 ≤ t ∧ t ≤ 0xFFFFFF)) with h | h
  · exact Or.inl (Or.inr ⟨by omega, by omega⟩)
  · exact Or.inr ⟨by omega, by omega⟩

/-- Reachability closure: from a readable in-space address, both the
fallthrough successor and any branch target stay in the space. -/
theorem okAddr_step {start a t : Int} (ha : ¬ bankWindow a)
    (haF : a ∈ addrSpace start) (hr1 : a - 0x8000 ≤ t) (hr2 : t ≤ a + 0x9000) :
    okAddr start t := by
  intro htw
  unfold addrSpace spanIcc at haF ⊢
  simp only [Finset.mem_union, Finset.mem_Icc] at haF ⊢
  rcases haF with (hk | hk) | hk
  · rcases span_confine ha hk.1 hk.2 htw hr1 hr2 with ⟨g1, g2⟩
    exact Or.inl (Or.inl ⟨by omega, by omega⟩)
  · rcases span_confine ha hk.1 hk.2 htw hr1 hr2 with ⟨g1, g2⟩
    exact Or.inl (Or.inr ⟨by omega, by omega⟩)
  · rcases span_confine ha hk.1 hk.2 htw hr1 hr2 with ⟨g1, g2⟩
    exact Or.inr ⟨by omega, by omega⟩

/-- A readable address is not in a window. -/
theorem readable_not_window {rom : List (Fin 256)} {mapper : Mapper} {a : Int}
    {b : Nat} (h : read_byte rom mapper a = some b) : ¬ bankWindow a := by
  intro hw
  rw [window_unreadable rom mapper hw] at h
  exact Option.noConfusion h

/-! ### The run invariant and termination measure -/

/-- Shape invariant of every cross-reference the tracker ever records: a
`jsr`/`jmp` reference was built by `(addr & 0xFF0000) | word`, and its bank
fields are the `>> 16` of its endpoint addresses. -/
def refBankOk (ref : CrossRef) : Prop :=
  ref.kind = "jsr" ∨ ref.kind = "jmp" →
    ref.from_bank = ref.from_addr / 65536 ∧
    ∃ w : Nat, w < 65536 ∧ ref.to_addr = absTarget ref.from_addr w ∧
      ref.to_bank = ref.to_addr / 65536

theorem JUMP_OPCODES_inv {op : Nat} {mn : String} {size : Nat}
    (h : JUMP_OPCODES op = some (mn, size)) :
    (mn = "JMP" ∧ size = 2) ∨ (mn = "JML" ∧ size = 3) ∨ (mn = "JML" ∧ size = 2) := by
  unfold JUMP_OPCODES at h
  split_ifs at h <;>
    simp only [Option.some.injEq, Prod.mk.injEq] at h
  all_goals rcases h with ⟨rfl, rfl⟩
  all_goals simp

/-- The in-block part of the invariant: the current address is admissible,
and so is any value held by the Python local `target`. -/
def phaseOk (start : Int) : Phase → Prop
  | .popping => True
  | .inBlock a _ _ tv => okAddr start a ∧ ∀ t, tv = some (some t) → okAddr start t

/-- The run invariant: every queued work item and the in-block position are
admissible addresses. -/
def Inv (start : Int) (c : TrackerSt × Phase) : Prop :=
  (∀ it ∈ c.1.pending, okAddr start it.1) ∧ phaseOk start c.2

/-- Keys of the visited map. -/
def visitedKeys (st : TrackerSt) : Finset Int :=
  (st.visited.map Prod.fst).toFinset

/-- Termination measure: unvisited admissible addresses dominate, then the
worklist length, then whether a block is mid-trace.  Every machine step
that yields `next` strictly decreases it. -/
def traceMeasure (start : Int) (c : TrackerSt × Phase) : Nat :=
  4 * ((addrSpace start) \ visitedKeys c.1).card + 2 * c.1.pending.length +
  (match c.2 with
   | .popping => 0
   | .inBlock _ _ _ _ => 1)

theorem visitedKeys_append (st : TrackerSt) (a : Int) (s : RegisterState) :
    visitedKeys { st with visited := st.visited ++ [(a, s)] } =
      insert a (visitedKeys st) := by
  unfold visitedKeys
  simp only [List.map_append, List.map_cons, List.map_nil, List.toFinset_append,
    List.toFinset_cons, List.toFinset_nil, insert_emptyc_eq, Finset.union_comm,
    ← Finset.insert_eq]

theorem sdiff_card_lt_of_insert {F K : Finset Int} {a : Int}
    (haF : a ∈ F) (haK : a ∉ K) :
    (F \ insert a K).card < (F \ K).card := by
  have hset : F \ insert a K = (F \ K).erase a := by
    ext x
    simp only [Finset.mem_sdiff, Finset.mem_insert, Finset.mem_erase]
    tauto
  rw [hset]
  exact Finset.card_erase_lt_of_mem (Finset.mem_sdiff.mpr ⟨haF, haK⟩)

theorem sdiff_card_le_of_insert (F K : Finset Int) (a : Int) :
    (F \ insert a K).card ≤ (F \ K).card :=
  Finset.card_le_card (Finset.sdiff_subset_sdiff (le_refl F)
    (Finset.subset_insert a K))

/-- Marking a fresh admissible address strictly shrinks the unvisited part
of the address space. -/
theorem visited_insert_card_lt (start : Int) (st : TrackerSt) {a : Int}
    (s : RegisterState) (haF : a ∈ addrSpace start)
    (hnone : st.visited.lookup a = none) :
    ((addrSpace start) \
        visitedKeys { st with visited := st.visited ++ [(a, s)] }).card <
      ((addrSpace start) \ visitedKeys st).card := by
  rw [visitedKeys_append]
  exact sdiff_card_lt_of_insert haF
    (by simpa [visitedKeys] using lookup_none_not_mem hnone)

theorem visited_insert_card_le (start : Int) (st : TrackerSt) (a : Int)
    (s : RegisterState) :
    ((addrSpace start) \
        visitedKeys { st with visited := st.visited ++ [(a, s)] }).card ≤
      ((addrSpace start) \ visitedKeys st).card := by
  rw [visitedKeys_append]
  exact sdiff_card_le_of_insert _ _ _

/-- Characterization of one instruction-processing step (`execInstr`):
either it raises a Python exception leaving the tracker state alone, or it
continues with the visited map untouched, at most one admissible work item
enqueued, recorded cross-references respecting `refBankOk`, and an
admissible continuation phase. -/
theorem execInstr_spec (rom : List (Fin 256)) (mapper : Mapper) (st : TrackerSt)
    (start : Int) {a : Int} (cur0 : RegisterState) (rs : Int)
    (tv : Option (Option Int)) {op : Nat} (r : StepRes)
    (hread : read_byte rom mapper a = some op)
    (haF : a ∈ addrSpace start)
    (htv : ∀ t, tv = some (some t) → okAddr start t)
    (hex : execInstr rom mapper st a cur0 rs tv op = r) :
    (∃ e, r = .error e st) ∨
    (∃ c'', r = .next c'' ∧
      c''.1.visited = st.visited ∧
      (∃ items, c''.1.pending = st.pending ++ items ∧ items.length ≤ 1 ∧
        ∀ it ∈ items, okAddr start it.1) ∧
      (∃ refs, c''.1.cross_refs = st.cross_refs ++ refs ∧ ∀ r ∈ refs, refBankOk r) ∧
      phaseOk start c''.2) := by
  have hw : ¬ bankWindow a := readable_not_window hread
  have hnext : ∀ s : Nat, s ≤ 3 → okAddr start (a + 1 + (s : Int)) := by
    intro s hs
    exact okAddr_step hw haF (by omega) (by omega)
  have hops : get_operand_size op cur0.m_width cur0.x_width ≤ 3 :=
    get_operand_size_le _ _ _ (m_width_le _) (x_width_le _)
  simp only [execInstr] at hex
  rcases hcall : CALL_OPCODES op with _ | ⟨mn, size⟩ <;>
    simp only [hcall] at hex
  · rcases hret : RETURN_OPCODES op with _ | mnr <;>
      simp only [hret] at hex
    · rcases hjmp : JUMP_OPCODES op with _ | ⟨mnj, sizej⟩ <;>
        simp only [hjmp] at hex
      · by_cases hbr : BRANCH_OPCODES op = true
        · rw [if_pos hbr] at hex
          by_cases hbrl : op = 0x82
          · rw [if_pos hbrl] at hex
            rcases hw2 : read_word rom mapper (a + 1) with _ | w <;>
              simp only [hw2] at hex
            · -- BRL with unreadable operand: stale or unbound target
              rcases tv with _ | otv
              · exact Or.inl ⟨_, hex.symm⟩
              · rcases otv with _ | t
                · exact Or.inl ⟨_, hex.symm⟩
                · have hokt : okAddr start t := htv t rfl
                  have h80 : ¬ op = 0x80 := by omega
                  dsimp only at hex
                  rw [if_neg h80] at hex
                  cases hex
                  refine Or.inr ⟨_, rfl, rfl, ⟨_, rfl, ?_, ?_⟩, ⟨_, rfl, ?_⟩, ?_, ?_⟩
                  · simp
                  · intro it hit
                    simp only [List.mem_singleton] at hit
                    subst hit
                    exact hokt
                  · intro r hr
                    simp only [List.mem_singleton] at hr
                    subst hr
                    intro hk
                    simp [setBanks] at hk
                  · exact hnext _ hops
                  · intro t' ht'
                    simp only [Option.some.injEq] at ht'
                    subst ht'
                    exact hokt
            · -- BRL with readable 16-bit offset
              have hwlt := read_word_lt hw2
              have hok : okAddr start
                  (a + 1 + (get_operand_size op cur0.m_width cur0.x_width : Int) +
                    (if (w : Int) ≥ 0x8000 then (w : Int) - 0x10000 else (w : Int))) := by
                refine okAddr_step hw haF ?_ ?_ <;> split <;> omega
              have h80 : ¬ op = 0x80 := by omega
              rw [if_neg h80] at hex
              cases hex
              refine Or.inr ⟨_, rfl, rfl, ⟨_, rfl, ?_, ?_⟩, ⟨_, rfl, ?_⟩, ?_, ?_⟩
              · simp
              · intro it hit
                simp only [List.mem_singleton] at hit
                subst hit
                exact hok
              · intro r hr
                simp only [List.mem_singleton] at hr
                subst hr
                intro hk
                simp [setBanks] at hk
              · exact hnext _ hops
              · intro t' ht'
                simp only [Option.some.injEq] at ht'
                subst ht'
                exact hok
          · rw [if_neg hbrl] at hex
            rcases hw2 : read_byte rom mapper (a + 1) with _ | w <;>
              simp only [hw2] at hex
            · -- branch with unreadable operand: stale or unbound target
              rcases tv with _ | otv
              · exact Or.inl ⟨_, hex.symm⟩
              · rcases otv with _ | t
                · exact Or.inl ⟨_, hex.symm⟩
                · have hokt : okAddr start t := htv t rfl
                  dsimp only at hex
                  by_cases h80 : op = 0x80
                  · rw [if_pos h80] at hex
                    cases hex
                    refine Or.inr ⟨_, rfl, rfl, ⟨_, rfl, ?_, ?_⟩, ⟨_, rfl, ?_⟩, trivial⟩
                    · simp
                    · intro it hit
                      simp only [List.mem_singleton] at hit
                      subst hit
                      exact hokt
                    · intro r hr
                      simp only [List.mem_singleton] at hr
                      subst hr
                      intro hk
                      simp [setBanks] at hk
                  · rw [if_neg h80] at hex
                    cases hex
                    refine Or.inr ⟨_, rfl, rfl, ⟨_, rfl, ?_, ?_⟩, ⟨_, rfl, ?_⟩, ?_, ?_⟩
                    · simp
                    · intro it hit
                      simp only [List.mem_singleton] at hit
                      subst hit
                      exact hokt
                    · intro r hr
                      simp only [List.mem_singleton] at hr
                      subst hr
                      intro hk
                      simp [setBanks] at hk
                    · exact hnext _ hops
                    · intro t' ht'
                      simp only [Option.some.injEq] at ht'
                      subst ht'
                      exact hokt
            · -- branch with readable 8-bit offset
              have hwlt := read_byte_lt hw2
              have hok : okAddr start
                  (a + 1 + (get_operand_size op cur0.m_width cur0.x_width : Int) +
                    (if (w : Int) ≥ 0x80 then (w : Int) - 0x100 else (w : Int))) := by
                refine okAddr_step hw haF ?_ ?_ <;> split <;> omega
              by_cases h80 : op = 0x80
              · rw [if_pos h80] at hex
                cases hex
                refine Or.inr ⟨_, rfl, rfl, ⟨_, rfl, ?_, ?_⟩, ⟨_, rfl, ?_⟩, trivial⟩
                · simp
                · intro it hit
                  simp only [List.mem_singleton] at hit
                  subst hit
                  exact hok
                · intro r hr
                  simp only [List.mem_singleton] at hr
                  subst hr
                  intro hk
                  simp [setBanks] at hk
              · rw [if_neg h80] at hex
                cases hex
                refine Or.inr ⟨_, rfl, rfl, ⟨_, rfl, ?_, ?_⟩, ⟨_, rfl, ?_⟩, ?_, ?_⟩
                · simp
                · intro it hit
                  simp only [List.mem_singleton] at hit
                  subst hit
                  exact hok
                · intro r hr
                  simp only [List.mem_singleton] at hr
                  subst hr
                  intro hk
                  simp [setBanks] at hk
                · exact hnext _ hops
                · intro t' ht'
                  simp only [Option.some.injEq] at ht'
                  subst ht'
                  exact hok
        · -- normal instruction: plain fallthrough
          rw [if_neg hbr] at hex
          cases hex
          exact Or.inr ⟨_, rfl, rfl, ⟨[], by simp, by simp, by simp⟩,
            ⟨[], by simp, by simp⟩, hnext _ hops, htv⟩
      · -- unconditional jump
        rcases JUMP_OPCODES_inv hjmp with ⟨rfl, rfl⟩ | ⟨rfl, rfl⟩ | ⟨rfl, rfl⟩
        · rw [if_pos rfl] at hex
          rcases hw2 : read_word rom mapper (a + 1) with _ | w <;>
            simp only [hw2] at hex
          · cases hex
            exact Or.inr ⟨_, rfl, rfl, ⟨[], by simp, by simp, by simp⟩,
              ⟨[], by simp, by simp⟩, trivial⟩
          · have hwlt := read_word_lt hw2
            cases hex
            refine Or.inr ⟨_, rfl, rfl, ⟨_, rfl, ?_, ?_⟩, ⟨_, rfl, ?_⟩, trivial⟩
            · simp
            · intro it hit
              simp only [List.mem_singleton] at hit
              subst hit
              exact okAddr_target24 start (absTarget_nonneg a w) (absTarget_lt a w hwlt)
            · intro r hr
              simp only [List.mem_singleton] at hr
              subst hr
              intro hk
              exact ⟨rfl, w, hwlt, rfl, rfl⟩
        · rw [if_neg (by decide : ¬ (3 : Nat) = 2)] at hex
          rcases hw2 : read_long rom mapper (a + 1) with _ | w <;>
            simp only [hw2] at hex
          · cases hex
            exact Or.inr ⟨_, rfl, rfl, ⟨[], by simp, by simp, by simp⟩,
              ⟨[], by simp, by simp⟩, trivial⟩
          · have hwlt := read_long_lt hw2
            cases hex
            refine Or.inr ⟨_, rfl, rfl, ⟨_, rfl, ?_, ?_⟩, ⟨_, rfl, ?_⟩, trivial⟩
            · simp
            · intro it hit
              simp only [List.mem_singleton] at hit
              subst hit
              exact okAddr_target24 start (by omega) (by omega)
            · intro r hr
              simp only [List.mem_singleton] at hr
              subst hr
              intro hk
              rw [show lowerMnemonic "JML" = "jml" from rfl] at hk
              simp [setBanks] at hk
        · rw [if_pos rfl] at hex
          rcases hw2 : read_word rom mapper (a + 1) with _ | w <;>
            simp only [hw2] at hex
          · cases hex
            exact Or.inr ⟨_, rfl, rfl, ⟨[], by simp, by simp, by simp⟩,
              ⟨[], by simp, by simp⟩, trivial⟩
          · have hwlt := read_word_lt hw2
            cases hex
            refine Or.inr ⟨_, rfl, rfl, ⟨_, rfl, ?_, ?_⟩, ⟨_, rfl, ?_⟩, trivial⟩
            · simp
            · intro it hit
              simp only [List.mem_singleton] at hit
              subst hit
              exact okAddr_target24 start (absTarget_nonneg a w) (absTarget_lt a w hwlt)
            · intro r hr
              simp only [List.mem_singleton] at hr
              subst hr
              intro hk
              rw [show lowerMnemonic "JML" = "jml" from rfl] at hk
              simp [setBanks] at hk
    · -- return instruction
      cases hex
      refine Or.inr ⟨_, rfl, ?_, ⟨[], ?_, by simp, by simp⟩, ⟨[], ?_, by simp⟩, trivial⟩
      · exact (check_stack_balance_fields _ _ _).1
      · rw [(check_stack_balance_fields _ _ _).2.1]
        simp
      · rw [(check_stack_balance_fields _ _ _).2.2]
        simp
  · -- call instruction
    by_cases hsz : size = 2
    · rw [if_pos hsz] at hex
      rcases hw2 : read_word rom mapper (a + 1) with _ | w <;>
        simp only [hw2] at hex
      · cases hex
        refine Or.inr ⟨_, rfl, rfl, ⟨[], by simp, by simp, by simp⟩,
          ⟨[], by simp, by simp⟩, hnext _ hops, ?_⟩
        intro t ht
        simp at ht
      · have hwlt := read_word_lt hw2
        cases hex
        refine Or.inr ⟨_, rfl, rfl, ⟨_, rfl, ?_, ?_⟩, ⟨_, rfl, ?_⟩, hnext _ hops, ?_⟩
        · simp
        · intro it hit
          simp only [List.mem_singleton] at hit
          subst hit
          exact okAddr_target24 start (absTarget_nonneg a w) (absTarget_lt a w hwlt)
        · intro r hr
          simp only [List.mem_singleton] at hr
          subst hr
          intro hk
          exact ⟨rfl, w, hwlt, rfl, rfl⟩
        · intro t ht
          simp only [Option.some.injEq] at ht
          subst ht
          exact okAddr_target24 start (by omega) (by omega)
    · rw [if_neg hsz] at hex
      rcases hw2 : read_long rom mapper (a + 1) with _ | w <;>
        simp only [hw2] at hex
      · cases hex
        refine Or.inr ⟨_, rfl, rfl, ⟨[], by simp, by simp, by simp⟩,
          ⟨[], by simp, by simp⟩, hnext _ hops, ?_⟩
        intro t ht
        simp at ht
      · have hwlt := read_long_lt hw2
        cases hex
        refine Or.inr ⟨_, rfl, rfl, ⟨_, rfl, ?_, ?_⟩, ⟨_, rfl, ?_⟩, hnext _ hops, ?_⟩
        · simp
        · intro it hit
          simp only [List.mem_singleton] at hit
          subst hit
          exact okAddr_target24 start (by omega) (by omega)
        · intro r hr
          simp only [List.mem_singleton] at hr
          subst hr
          intro hk
          simp [setBanks] at hk
        · intro t ht
          simp only [Option.some.injEq] at ht
          subst ht
          exact okAddr_target24 start (by omega) (by omega)

/-- Cardinality lemmas for the unvisited part of the address space, stated
over the raw visited list so that they match the unfolded measure. -/
theorem key_card_lt {F : Finset Int} {l : List (Int × RegisterState)} {a : Int}
    (s : RegisterState) (haF : a ∈ F) (hnone : l.lookup a = none) :
    (F \ ((l ++ [(a, s)]).map Prod.fst).toFinset).card <
      (F \ (l.map Prod.fst).toFinset).card := by
  have hkeys : ((l ++ [(a, s)]).map Prod.fst).toFinset =
      insert a (l.map Prod.fst).toFinset := by
    simp only [List.map_append, List.map_cons, List.map_nil, List.toFinset_append,
      List.toFinset_cons, List.toFinset_nil, insert_emptyc_eq, Finset.union_comm,
      ← Finset.insert_eq]
  rw [hkeys]
  exact sdiff_card_lt_of_insert haF
    (fun hmem => lookup_none_not_mem hnone (List.mem_toFinset.mp hmem))

theorem key_card_le (F : Finset Int) (l : List (Int × RegisterState)) (a : Int)
    (s : RegisterState) :
    (F \ ((l ++ [(a, s)]).map Prod.fst).toFinset).card ≤
      (F \ (l.map Prod.fst).toFinset).card := by
  have hkeys : ((l ++ [(a, s)]).map Prod.fst).toFinset =
      insert a (l.map Prod.fst).toFinset := by
    simp only [List.map_append, List.map_cons, List.map_nil, List.toFinset_append,
      List.toFinset_cons, List.toFinset_nil, insert_emptyc_eq, Finset.union_comm,
      ← Finset.insert_eq]
  rw [hkeys]
  exact sdiff_card_le_of_insert _ _ _

/-- Full characterization of one machine step from an invariant-satisfying
configuration: a `done` result is the current state with a drained
worklist, an `error` result leaves the recorded cross-references intact,
and a `next` result preserves the invariant, strictly decreases the
measure, never forgets or overwrites a visited entry, only appends
`refBankOk` cross-references, and marks at most the current trace address
as newly visited. -/
theorem step_spec (rom : List (Fin 256)) (mapper : Mapper) (start : Int)
    (c : TrackerSt × Phase) (r : StepRes)
    (hInv : Inv start c) (h : step rom mapper c = r) :
    (∀ st', r = .done st' → st' = c.1 ∧ st'.pending = []) ∧
    (∀ e st', r = .error e st' → st'.cross_refs = c.1.cross_refs) ∧
    (∀ c', r = .next c' →
      Inv start c' ∧ traceMeasure start c' < traceMeasure start c ∧
      (∀ av v, c.1.visited.lookup av = some v → c'.1.visited.lookup av = some v) ∧
      (∃ refs, c'.1.cross_refs = c.1.cross_refs ++ refs ∧ ∀ x ∈ refs, refBankOk x) ∧
      (∀ av, c.1.visited.lookup av = none → c'.1.visited.lookup av = none ∨
        ∃ curx rsx tvx, c.2 = .inBlock av curx rsx tvx ∧
          c'.1.visited.lookup av = some curx)) := by
  rcases c with ⟨st, ph⟩
  obtain ⟨hpend, hph⟩ := hInv
  cases ph with
  | popping =>
    rcases hp : st.pending with _ | ⟨it, rest⟩
    · simp only [step, hp] at h
      subst h
      refine ⟨?_, ?_, ?_⟩
      · intro st' hd
        cases hd
        exact ⟨rfl, hp⟩
      · intro e st' he
        simp at he
      · intro c' hn
        simp at hn
    · rcases it with ⟨addr, state, rsx⟩
      simp only [step, hp] at h
      subst h
      refine ⟨?_, ?_, ?_⟩
      · intro st' hd
        simp at hd
      · intro e st' he
        simp at he
      · intro c' hn
        cases hn
        have hmem : (addr, state, rsx) ∈ st.pending := by
          rw [hp]
          exact List.mem_cons_self _ _
        refine ⟨⟨?_, ⟨hpend _ hmem, ?_⟩⟩, ?_, ?_, ⟨[], by simp, by simp⟩, ?_⟩
        · intro it2 hit2
          exact hpend it2 (by rw [hp]; exact List.mem_cons_of_mem _ hit2)
        · intro t ht
          simp at ht
        · have hlen : st.pending.length = rest.length + 1 := by
            rw [hp]
            rfl
          unfold traceMeasure visitedKeys
          dsimp only
          omega
        · intro av v hv
          exact hv
        · intro av hnone
          exact Or.inl hnone
  | inBlock a cur rsx tv =>
    obtain ⟨hoka, htv⟩ := hph
    rcases hlk : st.visited.lookup a with _ | existing
    · -- fresh address: mark it and read
      simp only [step, hlk] at h
      rcases hrd : read_byte rom mapper a with _ | op <;> simp only [hrd] at h
      · -- unreadable: the trace branch dies silently
        subst h
        refine ⟨?_, ?_, ?_⟩
        · intro st' hd
          simp at hd
        · intro e st' he
          simp at he
        · intro c' hn
          cases hn
          refine ⟨⟨hpend, trivial⟩, ?_, ?_, ⟨[], by simp, by simp⟩, ?_⟩
          · have hle := key_card_le (addrSpace start) st.visited a cur
            unfold traceMeasure visitedKeys
            dsimp only
            omega
          · intro av v hv
            exact lookup_append_some hv
          · intro av hnone
            by_cases hav : av = a
            · subst hav
              exact Or.inr ⟨cur, rsx, tv, rfl, lookup_append_self hlk⟩
            · exact Or.inl (lookup_none_ne hnone hav)
      · -- readable: one instruction is processed
        have hwa : ¬ bankWindow a := readable_not_window hrd
        have haF : a ∈ addrSpace start := hoka hwa
        rcases execInstr_spec rom mapper _ start cur rsx tv r hrd haF htv h with
          ⟨e, rfl⟩ | ⟨c'', rfl, hv, ⟨items, hpend2, hlen, hitems⟩,
            ⟨refs, hrefs, hrefsok⟩, hphase⟩
        · refine ⟨?_, ?_, ?_⟩
          · intro st' hd
            simp at hd
          · intro e' st' he
            cases he
            rfl
          · intro c' hn
            simp at hn
        · refine ⟨?_, ?_, ?_⟩
          · intro st' hd
            simp at hd
          · intro e' st' he
            simp at he
          · intro c' hn
            cases hn
            dsimp only at hv hpend2 hrefs
            refine ⟨⟨?_, hphase⟩, ?_, ?_, ⟨refs, hrefs, hrefsok⟩, ?_⟩
            · intro it2 hit2
              rw [hpend2] at hit2
              rcases List.mem_append.mp hit2 with hit2 | hit2
              · exact hpend it2 hit2
              · exact hitems it2 hit2
            · have hlt := key_card_lt (F := addrSpace start) cur haF hlk
              have hb : (match c''.2 with
                | Phase.popping => 0
                | Phase.inBlock _ _ _ _ => 1) ≤ 1 := by
                cases c''.2 <;> simp
              have hlen2 : c''.1.pending.length = st.pending.length + items.length := by
                rw [hpend2, List.length_append]
              unfold traceMeasure visitedKeys
              dsimp only
              rw [hv]
              omega
            · intro av v hvv
              rw [hv]
              exact lookup_append_some hvv
            · intro av hnone
              by_cases hav : av = a
              · subst hav
                refine Or.inr ⟨cur, rsx, tv, rfl, ?_⟩
                rw [hv]
                exact lookup_append_self hlk
              · refine Or.inl ?_
                rw [hv]
                exact lookup_none_ne hnone hav
    · -- already visited: compatible or mismatching, the block stops
      simp only [step, hlk] at h
      split at h <;> subst h
      · refine ⟨?_, ?_, ?_⟩
        · intro st' hd
          simp at hd
        · intro e st' he
          simp at he
        · intro c' hn
          cases hn
          refine ⟨⟨hpend, trivial⟩, ?_, ?_, ⟨[], by simp, by simp⟩, ?_⟩
          · unfold traceMeasure visitedKeys
            dsimp only
            omega
          · intro av v hv
            exact hv
          · intro av hnone
            exact Or.inl hnone
      · refine ⟨?_, ?_, ?_⟩
        · intro st' hd
          simp at hd
        · intro e st' he
          simp at he
        · intro c' hn
          cases hn
          obtain ⟨hcv, hcp, hcr⟩ := check_state_mismatch_fields st a existing cur
          refine ⟨⟨?_, trivial⟩, ?_, ?_, ⟨[], by rw [hcr]; simp, by simp⟩, ?_⟩
          · intro it2 hit2
            rw [hcp] at hit2
            exact hpend it2 hit2
          · have hkc : (addrSpace start \
                (((check_state_mismatch st a existing cur).visited.map
                  Prod.fst).toFinset)).card =
                (addrSpace start \ ((st.visited.map Prod.fst).toFinset)).card := by
              rw [hcv]
            have hpeq : (check_state_mismatch st a existing cur).pending.length =
                st.pending.length := by
              rw [hcp]
            unfold traceMeasure visitedKeys
            dsimp only
            omega
          · intro av v hv
            rw [hcv]
            exact hv
          · intro av hnone
            rw [hcv]
            exact Or.inl hnone

/-! ### Run-level consequences -/

/-- Apply one machine step, staying put on termination or error. -/
def stepOnce (rom : List (Fin 256)) (mapper : Mapper) (c : TrackerSt × Phase) :
    TrackerSt × Phase :=
  match step rom mapper c with
  | .next c' => c'
  | _ => c

/-- The configuration after `k` machine steps. -/
def iterSteps (rom : List (Fin 256)) (mapper : Mapper) :
    Nat → TrackerSt × Phase → TrackerSt × Phase
  | 0, c => c
  | n + 1, c => stepOnce rom mapper (iterSteps rom mapper n c)

theorem stepOnce_spec (rom : List (Fin 256)) (mapper : Mapper) (start : Int)
    (c : TrackerSt × Phase) (hInv : Inv start c) :
    Inv start (stepOnce rom mapper c) ∧
    (∀ av v, c.1.visited.lookup av = some v →
      (stepOnce rom mapper c).1.visited.lookup av = some v) ∧
    (∀ av, c.1.visited.lookup av = none →
      (stepOnce rom mapper c).1.visited.lookup av = none ∨
      ∃ curx rsx tvx, c.2 = .inBlock av curx rsx tvx ∧
        (stepOnce rom mapper c).1.visited.lookup av = some curx) := by
  rcases hs : step rom mapper c with st' | ⟨e, st'⟩ | c'
  · simp only [stepOnce, hs]
    exact ⟨hInv, fun _ _ hv => hv, fun _ hn => Or.inl hn⟩
  · simp only [stepOnce, hs]
    exact ⟨hInv, fun _ _ hv => hv, fun _ hn => Or.inl hn⟩
  · simp only [stepOnce, hs]
    obtain ⟨hI, _, hmono, _, hfresh⟩ :=
      (step_spec rom mapper start c _ hInv hs).2.2 c' rfl
    exact ⟨hI, hmono, hfresh⟩

theorem iter_inv (rom : List (Fin 256)) (mapper : Mapper) (start : Int)
    (c0 : TrackerSt × Phase) (h0 : Inv start c0) :
    ∀ k, Inv start (iterSteps rom mapper k c0) := by
  intro k
  induction k with
  | zero => exact h0
  | succ k ih => exact (stepOnce_spec rom mapper start _ ih).1

/-- The fuel-indexed run never runs out of fuel once the fuel exceeds the
measure: the worklist machine terminates. -/
theorem runSteps_not_fuelOut (rom : List (Fin 256)) (mapper : Mapper) (start : Int) :
    ∀ (n : Nat) (c : TrackerSt × Phase), Inv start c → traceMeasure start c ≤ n →
      runSteps rom mapper (n + 1) c ≠ .fuelOut := by
  intro n
  induction n with
  | zero =>
    intro c hI hm
    rcases hs : step rom mapper c with st' | ⟨e, st'⟩ | c₂
    · simp [runSteps, hs]
    · simp [runSteps, hs]
    · obtain ⟨_, hlt, _⟩ := (step_spec rom mapper start c _ hI hs).2.2 c₂ rfl
      omega
  | succ n ih =>
    intro c hI hm
    rcases hs : step rom mapper c with st' | ⟨e, st'⟩ | c₂
    · simp [runSteps, hs]
    · simp [runSteps, hs]
    · obtain ⟨hI₂, hlt, _⟩ := (step_spec rom mapper start c _ hI hs).2.2 c₂ rfl
      have hne := ih c₂ hI₂ (by omega)
      simpa [runSteps, hs] using hne

/-- Every cross-reference held by the final (or crashed) tracker state
satisfies the bank-shape invariant. -/
theorem runSteps_refs (rom : List (Fin 256)) (mapper : Mapper) (start : Int) :
    ∀ (n : Nat) (c : TrackerSt × Phase) (st' : TrackerSt), Inv start c →
      (∀ x ∈ c.1.cross_refs, refBankOk x) →
      (runSteps rom mapper n c).stateOf = some st' →
      ∀ x ∈ st'.cross_refs, refBankOk x := by
  intro n
  induction n with
  | zero =>
    intro c st' _ _ hr
    simp [runSteps, RunResult.stateOf] at hr
  | succ n ih =>
    intro c st' hI hok hr
    rcases hs : step rom mapper c with st2 | ⟨e, st2⟩ | c2
    · simp only [runSteps, hs, RunResult.stateOf, Option.some.injEq] at hr
      obtain ⟨heq, _⟩ := (step_spec rom mapper start c _ hI hs).1 st2 rfl
      subst hr
      rw [heq]
      exact hok
    · simp only [runSteps, hs, RunResult.stateOf, Option.some.injEq] at hr
      have hcr := (step_spec rom mapper start c _ hI hs).2.1 e st2 rfl
      subst hr
      rw [hcr]
      exact hok
    · simp only [runSteps, hs] at hr
      obtain ⟨hI2, _, _, ⟨refs, hrefs, hrefsok⟩, _⟩ :=
        (step_spec rom mapper start c _ hI hs).2.2 c2 rfl
      refine ih c2 st' hI2 ?_ hr
      intro x hx
      rw [hrefs] at hx
      rcases List.mem_append.mp hx with hx | hx
      · exact hok x hx
      · exact hrefsok x hx

/-- A run that finishes normally has drained its worklist. -/
theorem runSteps_done_pending (rom : List (Fin 256)) (mapper : Mapper) (start : Int) :
    ∀ (n : Nat) (c : TrackerSt × Phase) (st' : TrackerSt), Inv start c →
      runSteps rom mapper n c = .done st' → st'.pending = [] := by
  intro n
  induction n with
  | zero =>
    intro c st' _ hr
    simp [runSteps] at hr
  | succ n ih =>
    intro c st' hI hr
    rcases hs : step rom mapper c with st2 | ⟨e, st2⟩ | c2
    · simp only [runSteps, hs, RunResult.done.injEq] at hr
      obtain ⟨_, hpd⟩ := (step_spec rom mapper start c _ hI hs).1 st2 rfl
      rw [← hr]
      exact hpd
    · simp [runSteps, hs] at hr
    · simp only [runSteps, hs] at hr
      obtain ⟨hI2, _, _, _, _⟩ := (step_spec rom mapper start c _ hI hs).2.2 c2 rfl
      exact ih c2 st' hI2 hr

/-- Seeding a tracker with a drained worklist yields an invariant-satisfying
configuration. -/
theorem Inv_seed (start : Int) (st0 : TrackerSt) (init : RegisterState)
    (hp : st0.pending = []) : Inv start (seed st0 start init, .popping) := by
  refine ⟨?_, trivial⟩
  intro it hit
  simp only [seed] at hit
  rw [hp] at hit
  simp only [List.nil_append, List.mem_singleton] at hit
  subst hit
  exact okAddr_entry start

/-- The fall-through condition of `get_operand_size`: the opcode is matched
by none of the documented addressing-mode or instruction rules, so the
final default applies. -/
def operand_size_default (opcode : Nat) : Bool :=
  let mode := opcode % 32
  !(opcode = 0x09 ∨ opcode = 0x29 ∨ opcode = 0x49 ∨ opcode = 0x69 ∨
    opcode = 0x89 ∨ opcode = 0xA9 ∨ opcode = 0xC9 ∨ opcode = 0xE9) &&
  !(opcode = 0xA0 ∨ opcode = 0xA2 ∨ opcode = 0xC0 ∨ opcode = 0xE0) &&
  !(mode = 0x05 ∨ mode = 0x06 ∨ mode = 0x07 ∨
    mode = 0x15 ∨ mode = 0x16 ∨ mode = 0x17) &&
  !(mode = 0x0D ∨ mode = 0x0E ∨ mode = 0x0F ∨
    mode = 0x1D ∨ mode = 0x1E ∨ mode = 0x1F) &&
  !(mode = 0x03 ∨ mode = 0x13) &&
  !(opcode = 0x10 ∨ opcode = 0x30 ∨ opcode = 0x50 ∨ opcode = 0x70 ∨
    opcode = 0x90 ∨ opcode = 0xB0 ∨ opcode = 0xD0 ∨ opcode = 0xF0 ∨
    opcode = 0x80) &&
  !(opcode = 0x82) &&
  !(opcode = 0x44 ∨ opcode = 0x54) &&
  !(opcode = 0x20 ∨ opcode = 0x4C ∨ opcode = 0x6C ∨ opcode = 0x7C ∨
    opcode = 0xFC) &&
  !(opcode = 0x22 ∨ opcode = 0x5C ∨ opcode = 0xDC) &&
  !(opcode = 0x00 ∨ opcode = 0x02 ∨ opcode = 0xC2 ∨ opcode = 0xE2) &&
  !(opcode = 0xF4 ∨ opcode = 0x62) &&
  !(opcode = 0xD4)


/-! ### Concrete inputs used by the claim theorems -/

/-- Scenario E: `JSL $028000` (cross-bank long call), `JSR $8009`
(same-bank call), `RTS`, `NOP`, `RTS`, mapped LoROM at `$8000`. -/
def romScenarioE : List (Fin 256) :=
  [0x22, 0x00, 0x80, 0x02, 0x20, 0x09, 0x80, 0x60, 0xEA, 0x60]

/-- `PHP; PLP; RTS`: a routine whose pushes and pulls are balanced. -/
def romPhpPlp : List (Fin 256) := [0x08, 0x28, 0x60]

/-- A lone `BRA` whose operand byte lies outside the ROM. -/
def romBareBranch : List (Fin 256) := [0x80]

/-- `BNE +6; REP #$20; BNE +2; REP #$10; RTS`: three paths reach `$8008`
with pairwise incompatible register states. -/
def romThreeStates : List (Fin 256) :=
  [0xD0, 0x06, 0xC2, 0x20, 0xD0, 0x02, 0xC2, 0x10, 0x60]

/-! ### The claims -/

/-- Claim C1 (code bug): in the Scenario E run the tracker records the
cross-bank `jsl` reference (bank 0 to bank 2) and a same-bank `jsr`, yet
`find_cross_bank_calls` returns the empty list: it filters for kinds
`jsr`/`jmp` only, and those references are same-bank by construction
(claim C10), while long calls are recorded under kind `jsl`, which the
filter never matches.  The spec expects exactly one cross-bank report
here, for the crossing call. -/
theorem c1_cross_bank_filter_returns_nothing :
    ∃ st, analyze_from romScenarioE .lorom 20 initTracker 0x8000 state88 = .done st ∧
      st.cross_refs.map CrossRef.kind = ["jsl", "jsr"] ∧
      (∃ ref ∈ st.cross_refs, ref.kind = "jsl" ∧ ref.from_bank = 0 ∧ ref.to_bank = 2 ∧
        ref.from_bank ≠ ref.to_bank) ∧
      CallGraph.find_cross_bank_calls st.call_graph = [] := by
  refine ⟨_, rfl, by decide,
    ⟨⟨0x8000, 0x28000, "jsl", 0, 2, false⟩, by decide, rfl, rfl, rfl, by decide⟩,
    by decide⟩

/-- Claim C2 (code bug): on `PHP; PLP; RTS` the return-site validation
emits both a stack-imbalance warning (residual +1, the `PHP` alone) and an
unbalanced `PHP`/`PLP` pair warning, although the routine is balanced.
The opcode `0x28` is in the `PULL_OPCODES` table as `PLP`, but the flag
`elif` chain consumes it first (resetting the flags and decrementing
`stack_depth` directly), so no `PLP` stack operation is ever recorded. -/
theorem c2_plp_never_recorded_as_stack_op :
    ∃ st, analyze_from romPhpPlp .lorom 10 initTracker 0x8000 state88 = .done st ∧
      PULL_OPCODES 0x28 = some "PLP" ∧
      st.stack_issues =
        [⟨"warning", "Stack imbalance at return", 0x8002,
           .imbalance 1 [⟨0x8000, "PHP", 1, 1⟩]⟩,
         ⟨"warning", "Unbalanced push-pull at return", 0x8002,
           .pairMismatch 1 0 ("PHP", "PLP")⟩] := by
  exact ⟨_, rfl, rfl, by decide⟩

/-- Claim C3 (code bug): when a branch opcode is readable but its operand
byte is not, the trace does not end silently: the branch block falls
through with the Python local `target` never assigned, and the subsequent
use raises `UnboundLocalError`, aborting the whole run. -/
theorem c3_branch_unreadable_operand_crash :
    ∃ st, analyze_from romBareBranch .lorom 10 initTracker 0x8000 state88 =
        .error .unboundLocalTarget st ∧
      BRANCH_OPCODES 0x80 = true ∧
      read_byte romBareBranch .lorom (0x8000 + 1) = none := by
  exact ⟨_, rfl, rfl, rfl⟩

/-- Claim C4: `analyze_from` terminates.  For every ROM, mapper and entry
point: some finite fuel suffices for the run to finish (the worklist
drains), visited-map membership is monotonic along machine steps, and a
step adds a visited entry only for the address the trace currently sits
on (every other address keeps its absence).  A finished run has an empty
worklist. -/
theorem c4_analyze_from_terminates (rom : List (Fin 256)) (mapper : Mapper)
    (st0 : TrackerSt) (start : Int) (init : RegisterState)
    (hp : st0.pending = []) :
    (∃ fuel, runSteps rom mapper fuel (seed st0 start init, .popping) ≠ .fuelOut) ∧
    (∀ k av v,
      (iterSteps rom mapper k (seed st0 start init, .popping)).1.visited.lookup av =
        some v →
      (iterSteps rom mapper (k + 1) (seed st0 start init, .popping)).1.visited.lookup av =
        some v) ∧
    (∀ k av,
      (iterSteps rom mapper k (seed st0 start init, .popping)).1.visited.lookup av =
        none →
      (iterSteps rom mapper (k + 1) (seed st0 start init, .popping)).1.visited.lookup av =
        none ∨
      ∃ curx rsx tvx,
        (iterSteps rom mapper k (seed st0 start init, .popping)).2 =
          .inBlock av curx rsx tvx ∧
        (iterSteps rom mapper (k + 1) (seed st0 start init, .popping)).1.visited.lookup av =
          some curx) ∧
    (∀ fuel st', runSteps rom mapper fuel (seed st0 start init, .popping) = .done st' →
      st'.pending = []) := by
  have h0 : Inv start (seed st0 start init, .popping) := Inv_seed start st0 init hp
  refine ⟨?_, ?_, ?_, ?_⟩
  · exact ⟨traceMeasure start (seed st0 start init, .popping) + 1,
      runSteps_not_fuelOut rom mapper start _ _ h0 (le_refl _)⟩
  · intro k av v hv
    exact (stepOnce_spec rom mapper start _ (iter_inv rom mapper start _ h0 k)).2.1 av v hv
  · intro k av hv
    exact (stepOnce_spec rom mapper start _ (iter_inv rom mapper start _ h0 k)).2.2 av hv
  · intro fuel st' hd
    exact runSteps_done_pending rom mapper start fuel _ st' h0 hd

/-- Witness for C4 at a concrete input: a one-byte `RTS` ROM. -/
theorem c4_witness :
    initTracker.pending = [] ∧
    (∃ fuel, runSteps [(0x60 : Fin 256)] .lorom fuel
      (seed initTracker 0x8000 state88, .popping) ≠ .fuelOut) :=
  ⟨rfl, (c4_analyze_from_terminates [(0x60 : Fin 256)] .lorom initTracker
    0x8000 state88 rfl).1⟩

/-- If two register states are incompatible, the warning condition of
`check_state_mismatch` holds (M or X is known on both sides and differs). -/
theorem mismatch_cond_of_incompatible : ∀ m1 m2 x1 x2 : Option Bool,
    (((m1 == m2) || (m1 == none) || (m2 == none)) &&
     ((x1 == x2) || (x1 == none) || (x2 == none))) = false →
    (m1.isSome && m2.isSome && (m1 != m2) ||
     (x1.isSome && x2.isSome && (x1 != x2))) = true := by decide

/-- Claim C5 (amended): a state-mismatch warning is emitted once per
incompatible arrival at a visited address, with no per-address
deduplication: every machine step that reaches a visited address whose
stored state is incompatible with the arriving one appends exactly one
new warning for that address and stops the trace. -/
theorem c5_state_mismatch_per_arrival (rom : List (Fin 256)) (mapper : Mapper)
    (st : TrackerSt) (addr : Int) (cur : RegisterState) (rs : Int)
    (tv : Option (Option Int)) (existing : RegisterState)
    (hv : st.visited.lookup addr = some existing)
    (hc : states_compatible existing cur = false) :
    ∃ st', step rom mapper (st, .inBlock addr cur rs tv) = .next (st', .popping) ∧
      st'.diagnostics = st.diagnostics ++
        [⟨"warning", "State mismatch", addr, .stateMismatch existing cur⟩] := by
  have hc' := hc
  unfold states_compatible at hc'
  have hcond := mismatch_cond_of_incompatible existing.m_flag cur.m_flag
    existing.x_flag cur.x_flag hc'
  refine ⟨check_state_mismatch st addr existing cur, ?_, ?_⟩
  · simp only [step, hv]
    rw [if_neg (by rw [hc]; exact Bool.false_ne_true)]
  · unfold check_state_mismatch
    dsimp only
    rw [if_pos hcond]

/-- Witness for C5 at a concrete input: an address visited with known
8-bit M is reached again with known 16-bit M. -/
theorem c5_witness :
    ({ visited := [((0 : Int), state88)] } : TrackerSt).visited.lookup 0 =
      some state88 ∧
    states_compatible state88 { m_flag := some false, x_flag := some true } = false ∧
    (∃ st', step [] .lorom (({ visited := [((0 : Int), state88)] } : TrackerSt),
        .inBlock 0 { m_flag := some false, x_flag := some true } 0 none) =
        .next (st', .popping) ∧
      st'.diagnostics =
        ({ visited := [((0 : Int), state88)] } : TrackerSt).diagnostics ++
        [⟨"warning", "State mismatch", 0,
          .stateMismatch state88 { m_flag := some false, x_flag := some true }⟩]) :=
  ⟨rfl, by decide,
    c5_state_mismatch_per_arrival [] .lorom _ 0
      { m_flag := some false, x_flag := some true } 0 none state88 rfl (by decide)⟩

/-- Counterexample to C5 as stated: in the `romThreeStates` run, the
address `$8008` is reached by three pairwise-incompatible paths and
receives two state-mismatch warnings, not at most one. -/
theorem c5_counterexample :
    ∃ st, analyze_from romThreeStates .lorom 30 initTracker 0x8000 state88 = .done st ∧
      (st.diagnostics.filter (fun d =>
        d.message == "State mismatch" && d.address == 0x8008)).length = 2 := by
  exact ⟨_, rfl, by decide⟩

/-- Claim C6 (amended): for every opcode matched by none of the documented
addressing-mode or instruction rules, `get_operand_size` returns 0 (not 1
as the spec states), for all width inputs. -/
theorem c6_default_operand_size_zero (opcode m_width x_width : Nat)
    (h : operand_size_default opcode = true) :
    get_operand_size opcode m_width x_width = 0 := by
  simp only [operand_size_default, Bool.and_eq_true, Bool.not_eq_true',
    decide_eq_false_iff_not] at h
  obtain ⟨⟨⟨⟨⟨⟨⟨⟨⟨⟨⟨⟨h1, h2⟩, h3⟩, h4⟩, h5⟩, h6⟩, h7⟩, h8⟩, h9⟩, h10⟩, h11⟩, h12⟩, h13⟩ := h
  unfold get_operand_size
  dsimp only
  rw [if_neg h1, if_neg h2, if_neg h3, if_neg h4, if_neg h5, if_neg h6, if_neg h7,
      if_neg h8, if_neg h9, if_neg h10, if_neg h11, if_neg h12, if_neg h13]

/-- Witness for C6 at a concrete input: opcode `0x42` (WDM, undocumented). -/
theorem c6_witness :
    operand_size_default 0x42 = true ∧ get_operand_size 0x42 1 1 = 0 :=
  ⟨by decide, c6_default_operand_size_zero 0x42 1 1 (by decide)⟩

/-- Counterexample to C6 as stated: opcode `0x42` matches no documented
rule, yet `get_operand_size` returns 0, not the claimed 1. -/
theorem c6_counterexample :
    operand_size_default 0x42 = true ∧
    get_operand_size 0x42 1 1 = 0 ∧ get_operand_size 0x42 2 2 = 0 ∧
    get_operand_size 0x42 1 1 ≠ 1 := by decide

/-- Claim C7: processing `REP` (`0xC2`) or `SEP` (`0xE2`) with a readable
mask byte sets the M flag to known-16-bit respectively known-8-bit exactly
when mask bit `0x20` is set and the X flag likewise for bit `0x10`; a flag
whose bit is clear keeps its prior value, and the emulation flag, stack
depth and stack-operation log are unchanged.  Control falls through to the
following instruction (operand size 1). -/
theorem c7_rep_sep_mask (rom : List (Fin 256)) (mapper : Mapper) (st : TrackerSt)
    (addr : Int) (cur : RegisterState) (rs : Int) (tv : Option (Option Int))
    (op mask : Nat)
    (hv : st.visited.lookup addr = none)
    (hop : read_byte rom mapper addr = some op)
    (hrep : op = 0xC2 ∨ op = 0xE2)
    (hmask : read_byte rom mapper (addr + 1) = some mask) :
    ∃ cur', step rom mapper (st, .inBlock addr cur rs tv) =
        .next ({ st with visited := st.visited ++ [(addr, cur)] },
          .inBlock (addr + 2) cur' rs tv) ∧
      cur'.m_flag = (if mask &&& 0x20 ≠ 0
        then some (if op = 0xC2 then false else true) else cur.m_flag) ∧
      cur'.x_flag = (if mask &&& 0x10 ≠ 0
        then some (if op = 0xC2 then false else true) else cur.x_flag) ∧
      cur'.emulation = cur.emulation ∧
      cur'.stack_depth = cur.stack_depth ∧
      cur'.stack_ops = cur.stack_ops := by
  rcases hrep with rfl | rfl
  · have key : step rom mapper (st, .inBlock addr cur rs tv) =
        .next ({ st with visited := st.visited ++ [(addr, cur)] },
          .inBlock (addr + 1 + 1)
            (if mask &&& 0x10 ≠ 0 then
              { (if mask &&& 0x20 ≠ 0 then { cur with m_flag := some false } else cur) with
                x_flag := some false }
             else (if mask &&& 0x20 ≠ 0 then { cur with m_flag := some false } else cur))
            rs tv) := by
      simp only [step, hv, hop]
      unfold execInstr
      rw [hmask]
      set_option maxHeartbeats 1000000 in
      rfl
    have h2 : addr + 1 + 1 = addr + 2 := by omega
    rw [h2] at key
    refine ⟨_, key, ?_, ?_, ?_, ?_, ?_⟩ <;>
      by_cases h10 : mask &&& 0x10 ≠ 0 <;> by_cases h20 : mask &&& 0x20 ≠ 0 <;>
      simp [h10, h20]
  · have key : step rom mapper (st, .inBlock addr cur rs tv) =
        .next ({ st with visited := st.visited ++ [(addr, cur)] },
          .inBlock (addr + 1 + 1)
            (if mask &&& 0x10 ≠ 0 then
              { (if mask &&& 0x20 ≠ 0 then { cur with m_flag := some true } else cur) with
                x_flag := some true }
             else (if mask &&& 0x20 ≠ 0 then { cur with m_flag := some true } else cur))
            rs tv) := by
      simp only [step, hv, hop]
      unfold execInstr
      rw [hmask]
      set_option maxHeartbeats 1000000 in
      rfl
    have h2 : addr + 1 + 1 = addr + 2 := by omega
    rw [h2] at key
    refine ⟨_, key, ?_, ?_, ?_, ?_, ?_⟩ <;>
      by_cases h10 : mask &&& 0x10 ≠ 0 <;> by_cases h20 : mask &&& 0x20 ≠ 0 <;>
      simp [h10, h20]

/-- Witness for C7 at a concrete input: `REP #$30` from 8-bit M and X. -/
theorem c7_witness :
    initTracker.visited.lookup 0x8000 = none ∧
    read_byte [(0xC2 : Fin 256), 0x30] .lorom 0x8000 = some 0xC2 ∧
    ((0xC2 : Nat) = 0xC2 ∨ (0xC2 : Nat) = 0xE2) ∧
    read_byte [(0xC2 : Fin 256), 0x30] .lorom (0x8000 + 1) = some 0x30 ∧
    (∃ cur', step [(0xC2 : Fin 256), 0x30] .lorom
        (initTracker, .inBlock 0x8000 state88 0x8000 none) =
        .next ({ initTracker with visited := initTracker.visited ++ [(0x8000, state88)] },
          .inBlock ((0x8000 : Int) + 2) cur' 0x8000 none) ∧
      cur'.m_flag = (if (0x30 : Nat) &&& 0x20 ≠ 0
        then some (if (0xC2 : Nat) = 0xC2 then false else true) else state88.m_flag) ∧
      cur'.x_flag = (if (0x30 : Nat) &&& 0x10 ≠ 0
        then some (if (0xC2 : Nat) = 0xC2 then false else true) else state88.x_flag) ∧
      cur'.emulation = state88.emulation ∧
      cur'.stack_depth = state88.stack_depth ∧
      cur'.stack_ops = state88.stack_ops) :=
  ⟨rfl, rfl, Or.inl rfl, rfl,
    c7_rep_sep_mask [(0xC2 : Fin 256), 0x30] .lorom initTracker 0x8000 state88
      0x8000 none 0xC2 0x30 rfl rfl (Or.inl rfl) rfl⟩

/-- Claim C8: `get_stack_delta` scales the accumulator push/pull base
delta by 2 exactly when the M flag is known-16-bit (`some false`) and by 1
otherwise (known-8-bit or unknown), the index-register pushes/pulls
likewise on the X flag, and the status, data-bank and direct-page
pushes/pulls are width-independent. -/
theorem c8_stack_delta_scaling (s : RegisterState) :
    (s.get_stack_delta "PHA" = 1 * (if s.m_flag == some false then 2 else 1)) ∧
    (s.get_stack_delta "PLA" = (-1) * (if s.m_flag == some false then 2 else 1)) ∧
    (s.get_stack_delta "PHX" = 1 * (if s.x_flag == some false then 2 else 1)) ∧
    (s.get_stack_delta "PLX" = (-1) * (if s.x_flag == some false then 2 else 1)) ∧
    (s.get_stack_delta "PHY" = 1 * (if s.x_flag == some false then 2 else 1)) ∧
    (s.get_stack_delta "PLY" = (-1) * (if s.x_flag == some false then 2 else 1)) ∧
    (s.get_stack_delta "PHP" = 1) ∧ (s.get_stack_delta "PLP" = -1) ∧
    (s.get_stack_delta "PHB" = 1) ∧ (s.get_stack_delta "PLB" = -1) ∧
    (s.get_stack_delta "PHD" = 2) ∧ (s.get_stack_delta "PLD" = -2) :=
  ⟨rfl, rfl, rfl, rfl, rfl, rfl, rfl, rfl, rfl, rfl, rfl, rfl⟩

/-- The LoROM mapping convention as the specification words it: 32 KB
windows (bank offsets `0x8000..0xFFFF`) repeating across the ROM bank
ranges; lower bank halves are not ROM.  This definition follows the
specification text, for comparison against `snes_to_pc`, which is
translated from the code. -/
def spec_lorom_mapped (addr : Int) : Bool :=
  let bank := (addr / 65536) % 256
  let offset := addr % 65536
  (decide (bank < 0x40) || decide (0x80 ≤ bank)) && decide (0x8000 ≤ offset)

/-- Claim C9 (amended): `snes_to_pc` is total, but only the bank ranges
the code checks for produce the `-1` sentinel: banks `0x40..0x7F` under
both mappers, and banks `0xC0..0xFF` under HiROM.  Lower-half offsets of
LoROM banks are not detected as unmapped (see the counterexample); every
negative translation result, the sentinel included, is caught by
`read_byte`, which returns `none` rather than a byte. -/
theorem c9_unmapped_sentinel (rom : List (Fin 256)) (mapper : Mapper) (addr : Int)
    (h0 : 0 ≤ addr) (h1 : addr < 16777216) :
    (0x40 ≤ addr / 65536 ∧ addr / 65536 < 0x80 →
      snes_to_pc addr .lorom = -1 ∧ snes_to_pc addr .hirom = -1) ∧
    (0xC0 ≤ addr / 65536 → snes_to_pc addr .hirom = -1) ∧
    (snes_to_pc addr mapper < 0 → read_byte rom mapper addr = none) := by
  have hb : (addr / 65536) % 256 = addr / 65536 := by omega
  refine ⟨?_, ?_, ?_⟩
  · rintro ⟨h40, h80⟩
    constructor
    · unfold snes_to_pc
      dsimp only
      rw [hb, if_neg (by omega), if_neg (by omega), if_neg (by omega)]
    · unfold snes_to_pc
      dsimp only
      rw [hb, if_neg (by omega), if_neg (by omega)]
  · intro hC0
    unfold snes_to_pc
    dsimp only
    rw [hb, if_neg (by omega), if_neg (by omega)]
  · intro hneg
    unfold read_byte
    dsimp only
    rw [if_neg (by omega)]

/-- Witness for C9 at a concrete input: address `$400000` (bank `0x40`). -/
theorem c9_witness :
    (0 : Int) ≤ 0x400000 ∧ (0x400000 : Int) < 16777216 ∧
    (((0x40 : Int) ≤ 0x400000 / 65536 ∧ (0x400000 : Int) / 65536 < 0x80 →
        snes_to_pc 0x400000 .lorom = -1 ∧ snes_to_pc 0x400000 .hirom = -1) ∧
      ((0xC0 : Int) ≤ 0x400000 / 65536 → snes_to_pc 0x400000 .hirom = -1) ∧
      (snes_to_pc 0x400000 .lorom < 0 → read_byte [] .lorom 0x400000 = none)) :=
  ⟨by decide, by decide,
    c9_unmapped_sentinel [] .lorom 0x400000 (by decide) (by decide)⟩

/-- Counterexample to C9 as stated: address `$010000` (bank 1, offset 0)
is unmapped under the LoROM convention the spec describes, yet
`snes_to_pc` returns the valid-looking offset 0 instead of the sentinel,
aliasing the genuinely mapped address `$008000`. -/
theorem c9_counterexample :
    spec_lorom_mapped 0x10000 = false ∧
    snes_to_pc 0x10000 .lorom = 0 ∧
    snes_to_pc 0x10000 .lorom ≠ -1 ∧
    spec_lorom_mapped 0x8000 = true ∧
    snes_to_pc 0x8000 .lorom = snes_to_pc 0x10000 .lorom := by
  decide

/-- Claim C10: every cross-reference of kind `jsr` or `jmp` a run records
joins a 24-bit source address to a destination in the same bank: the
destination is the source bank byte combined with the 16-bit operand, so
`from_bank = to_bank` for all such references (only `jsl`/`jml`/`branch`
references can cross banks). -/
theorem c10_jsr_jmp_same_bank (rom : List (Fin 256)) (mapper : Mapper) (n : Nat)
    (st0 : TrackerSt) (start : Int) (init : RegisterState) (st' : TrackerSt)
    (hp : st0.pending = [])
    (h0 : ∀ x ∈ st0.cross_refs, refBankOk x)
    (hrun : (runSteps rom mapper n (seed st0 start init, .popping)).stateOf = some st') :
    ∀ ref ∈ st'.cross_refs, ref.kind = "jsr" ∨ ref.kind = "jmp" →
      0 ≤ ref.from_addr → ref.from_addr < 16777216 →
      ref.from_bank = ref.to_bank := by
  have hall : ∀ x ∈ st'.cross_refs, refBankOk x := by
    refine runSteps_refs rom mapper start n _ st' (Inv_seed start st0 init hp) ?_ hrun
    intro x hx
    exact h0 x hx
  intro ref href hkind h0f h1f
  obtain ⟨hfb, w, hwlt, hta, htb⟩ := hall ref href hkind
  rw [hfb, htb, hta, absTarget_eq_add _ _ hwlt]
  have hbm : (ref.from_addr / 65536) % 256 = ref.from_addr / 65536 := by omega
  rw [hbm]
  omega

/-- Witness for C10 at a concrete input: the Scenario E run records a
`jsr` reference and its banks agree. -/
theorem c10_witness :
    initTracker.pending = [] ∧
    (∃ st', (runSteps romScenarioE .lorom 20
        (seed initTracker 0x8000 state88, .popping)).stateOf = some st' ∧
      ∃ ref ∈ st'.cross_refs, ref.kind = "jsr" ∧ 0 ≤ ref.from_addr ∧
        ref.from_addr < 16777216 ∧ ref.from_bank = ref.to_bank) := by
  refine ⟨rfl, _, rfl, ?_⟩
  have happ := c10_jsr_jmp_same_bank romScenarioE .lorom 20 initTracker 0x8000
    state88 _ rfl (by intro x hx; exact absurd hx (List.not_mem_nil x)) rfl
  exact ⟨⟨0x8004, 0x8009, "jsr", 0, 0, false⟩, by decide, rfl, by decide, by decide,
    happ ⟨0x8004, 0x8009, "jsr", 0, 0, false⟩ (by decide) (Or.inl rfl)
      (by decide) (by decide)⟩

end Z3dk
